import Mathlib

/-!
# Verification of the RAG translation pipeline (`backend/translation/rag_translator.py`)

A shallow embedding of the pipeline's components: strings are modelled as
`List Char`, Python floats as exact rationals/reals, the external HTTP
transport and the `hashlib.md5` / builtin `hash` functions as explicit
function parameters (the code treats them as opaque).  Each definition
mirrors one Python function of the source file.
-/

namespace RagTranslator

/-- Python strings, modelled as lists of characters. -/
abbrev Str := List Char

/-- `"..."` literals converted to `Str`. -/
def str (s : String) : Str := s.data

/-- Python `str.lower()` (ASCII-adequate for the texts involved). -/
def pyLower (s : Str) : Str := s.map Char.toLower

/-- Left strip of whitespace (half of Python `str.strip()`). -/
def lstrip (s : Str) : Str := s.dropWhile Char.isWhitespace

/-- Right strip of whitespace (half of Python `str.strip()`). -/
def rstrip (s : Str) : Str := (s.reverse.dropWhile Char.isWhitespace).reverse

/-- Python `str.strip()`: remove leading and trailing whitespace. -/
def pyStrip (s : Str) : Str := lstrip (rstrip s)

/-- Python `s[-n:]` for `n > 0`: the last `min n (length s)` characters.
(The source only evaluates this shape with a positive `n`.) -/
def takeRight (n : Nat) (s : Str) : Str := s.drop (s.length - n)

/-- Worker for `pySplit`: `acc` holds the (reversed) word being read. -/
def pySplitGo : Str → Str → List Str
  | [], acc => if acc = [] then [] else [acc.reverse]
  | c :: cs, acc =>
      if c.isWhitespace then
        if acc = [] then pySplitGo cs [] else acc.reverse :: pySplitGo cs []
      else pySplitGo cs (c :: acc)

/-- Python `str.split()` with no argument: split on whitespace runs,
dropping empty pieces. -/
def pySplit (s : Str) : List Str := pySplitGo s []

/-- Python `a in b` on strings: substring (contiguous) containment test. -/
def pyContains (hay needle : Str) : Bool := decide (needle <:+: hay)

-- ===========================================================================
-- 9. CACHING LAYER — `TranslationCache` (source lines 445–486)
-- ===========================================================================

/-- State of a `TranslationCache` object.  `cache` models the `OrderedDict`:
front of the list = oldest (first to be popped by `popitem(last=False)`),
back = most recently inserted / promoted. -/
structure TranslationCache where
  cache : List (Str × Str)
  max_size : Nat
  hits : Nat
  misses : Nat
deriving Repr, DecidableEq

/-- `TranslationCache(max_size)` — fresh cache (default `max_size` is 100). -/
def TranslationCache.init (max_size : Nat) : TranslationCache :=
  { cache := [], max_size := max_size, hits := 0, misses := 0 }

/-- Ordered-dict membership test `key in self.cache`. -/
def odMem (l : List (Str × Str)) (k : Str) : Bool :=
  l.any (fun e => e.1 == k)

/-- Ordered-dict lookup `self.cache[key]`. -/
def odFind (l : List (Str × Str)) (k : Str) : Option (Str × Str) :=
  l.find? (fun e => e.1 == k)

/-- `OrderedDict.move_to_end(key)`: move the entry for `k` (when present)
to the most-recently-used end. -/
def odMoveToEnd (l : List (Str × Str)) (k : Str) : List (Str × Str) :=
  match l.find? (fun e => e.1 == k) with
  | none => l
  | some e => l.eraseP (fun e => e.1 == k) ++ [e]

/-- `OrderedDict` assignment `self.cache[key] = v`: updates in place when the
key exists (keeping its position), otherwise appends at the new end. -/
def odSet (l : List (Str × Str)) (k v : Str) : List (Str × Str) :=
  if odMem l k then l.map (fun e => if e.1 == k then (k, v) else e)
  else l ++ [(k, v)]

/-- `TranslationCache.get(text)` (lines 458–467).  `hkey` models
`_hash_key` = `hashlib.md5(text).hexdigest()`, an opaque function of the
text.  Returns the cached translation (if any) and the updated cache. -/
def TranslationCache.get (hkey : Str → Str) (c : TranslationCache) (text : Str) :
    Option Str × TranslationCache :=
  match odFind c.cache (hkey text) with
  | some e =>
      (some e.2, { c with hits := c.hits + 1, cache := odMoveToEnd c.cache (hkey text) })
  | none => (none, { c with misses := c.misses + 1 })

/-- `TranslationCache.set(text, translation)` (lines 469–477).  When the
cache is full it first pops the oldest item (`popitem(last=False)`; with
`max_size = 0` and an empty dict the Python raises, a state our theorems
exclude via `0 < max_size`). -/
def TranslationCache.set (hkey : Str → Str) (c : TranslationCache)
    (text translation : Str) : TranslationCache :=
  { c with cache := odSet (if c.max_size ≤ c.cache.length then c.cache.tail else c.cache) (hkey text) translation }

/-- Snapshot returned by `TranslationCache.get_stats` (lines 479–486). -/
structure CacheStats where
  size : Nat
  hits : Nat
  misses : Nat
  hit_rate : ℚ
deriving Repr, DecidableEq

/-- `TranslationCache.get_stats()`. -/
def TranslationCache.get_stats (c : TranslationCache) : CacheStats :=
  { size := c.cache.length
    hits := c.hits
    misses := c.misses
    hit_rate := if 0 < c.hits + c.misses then (c.hits : ℚ) / (c.hits + c.misses) else 0 }

/-- One client-visible cache operation (for stating "any sequence of
get/set operations"). -/
inductive CacheOp where
  | get (text : Str)
  | set (text translation : Str)

/-- Apply one operation to the cache state. -/
def cacheApply (hkey : Str → Str) (c : TranslationCache) : CacheOp → TranslationCache
  | .get t => (TranslationCache.get hkey c t).2
  | .set t v => TranslationCache.set hkey c t v

/-- Fold a list of `set` operations (used to state the eviction scenario). -/
def setFold (hkey : Str → Str) (c : TranslationCache) (ps : List (Str × Str)) :
    TranslationCache :=
  ps.foldl (fun c p => TranslationCache.set hkey c p.1 p.2) c

-- Helper lemmas about the ordered-dict model

lemma odMoveToEnd_length (l : List (Str × Str)) (k : Str) :
    (odMoveToEnd l k).length = l.length := by
  unfold odMoveToEnd
  cases h : l.find? (fun e => e.1 == k) with
  | none => rfl
  | some e =>
      have hmem := List.mem_of_find?_eq_some h
      have hp := List.find?_some h
      have hlen := List.length_eraseP_of_mem (p := fun e => e.1 == k) hmem hp
      have hpos : 1 ≤ l.length := List.length_pos.mpr (by rintro rfl; simp at hmem)
      simp only [List.length_append, List.length_cons, List.length_nil, hlen]
      omega

lemma odSet_length_le (l : List (Str × Str)) (k v : Str) :
    (odSet l k v).length ≤ l.length + 1 := by
  unfold odSet
  split
  · simp
  · simp

lemma TranslationCache.get_cache_length (hkey : Str → Str) (c : TranslationCache)
    (t : Str) : (TranslationCache.get hkey c t).2.cache.length = c.cache.length := by
  unfold TranslationCache.get
  cases h : odFind c.cache (hkey t) with
  | none => simp [h]
  | some e => simp [h, odMoveToEnd_length]

lemma TranslationCache.set_cache_length (hkey : Str → Str) (c : TranslationCache)
    (t v : Str) (h0 : 0 < c.max_size) (h : c.cache.length ≤ c.max_size) :
    (TranslationCache.set hkey c t v).cache.length ≤ c.max_size := by
  unfold TranslationCache.set
  simp only
  split
  · calc (odSet c.cache.tail (hkey t) v).length ≤ c.cache.tail.length + 1 :=
          odSet_length_le ..
      _ ≤ c.max_size := by
          have := List.length_tail c.cache
          omega
  · calc (odSet c.cache (hkey t) v).length ≤ c.cache.length + 1 := odSet_length_le ..
      _ ≤ c.max_size := by omega

lemma cacheApply_max_size (hkey : Str → Str) (c : TranslationCache) (op : CacheOp) :
    (cacheApply hkey c op).max_size = c.max_size := by
  cases op with
  | get t =>
      unfold cacheApply TranslationCache.get
      cases h : odFind c.cache (hkey t) <;> simp [h]
  | set t v => rfl

lemma cacheApply_bounded (hkey : Str → Str) (c : TranslationCache) (op : CacheOp)
    (h0 : 0 < c.max_size) (h : c.cache.length ≤ c.max_size) :
    (cacheApply hkey c op).cache.length ≤ c.max_size := by
  cases op with
  | get t =>
      unfold cacheApply
      rw [TranslationCache.get_cache_length]
      exact h
  | set t v => exact TranslationCache.set_cache_length hkey c t v h0 h

lemma foldl_cacheApply_bounded (hkey : Str → Str) (ops : List CacheOp) :
    ∀ c : TranslationCache, 0 < c.max_size → c.cache.length ≤ c.max_size →
      (ops.foldl (cacheApply hkey) c).cache.length ≤ (ops.foldl (cacheApply hkey) c).max_size := by
  induction ops with
  | nil => intro c h0 h; exact h
  | cons op ops ih =>
      intro c h0 h
      have hms := cacheApply_max_size hkey c op
      exact ih (cacheApply hkey c op) (hms ▸ h0) (hms ▸ cacheApply_bounded hkey c op h0 h)

lemma odMem_iff (l : List (Str × Str)) (k : Str) :
    odMem l k = true ↔ k ∈ l.map Prod.fst := by
  simp [odMem, List.any_eq_true, List.mem_map]

/-- Filling a cache with fresh, pairwise-distinct keys while there is room
just appends the entries in order (no eviction). -/
lemma setFold_fresh (hkey : Str → Str) :
    ∀ (ps : List (Str × Str)) (c : TranslationCache),
      c.cache.length + ps.length ≤ c.max_size →
      (c.cache.map Prod.fst ++ ps.map (fun p => hkey p.1)).Nodup →
      setFold hkey c ps =
        { c with cache := c.cache ++ ps.map (fun p => (hkey p.1, p.2)) } := by
  intro ps
  induction ps with
  | nil => intro c _ _; simp [setFold]
  | cons p ps ih =>
      intro c hlen hnodup
      have hfresh : ¬ (hkey p.1 ∈ c.cache.map Prod.fst) := by
        rw [List.nodup_append] at hnodup
        intro hmem
        exact hnodup.2.2 hmem (by simp)
      have hset : TranslationCache.set hkey c p.1 p.2 =
          { c with cache := c.cache ++ [(hkey p.1, p.2)] } := by
        unfold TranslationCache.set
        have hroom : ¬ (c.max_size ≤ c.cache.length) := by
          simp only [List.length_cons] at hlen; omega
        have hmem : odMem c.cache (hkey p.1) = false := by
          cases h : odMem c.cache (hkey p.1) with
          | false => rfl
          | true => exact absurd ((odMem_iff _ _).mp h) hfresh
        simp [hroom, odSet, hmem]
      have hstep : setFold hkey c (p :: ps) =
          setFold hkey { c with cache := c.cache ++ [(hkey p.1, p.2)] } ps := by
        simp [setFold, List.foldl_cons, hset]
      rw [hstep, ih _ ?_ ?_]
      · simp
      · simp only [List.length_append, List.length_cons, List.length_nil] at hlen ⊢
        omega
      · simpa [List.append_assoc] using hnodup

-- ===========================================================================
-- 7. LLM GENERATOR — `GeminiGenerator.generate` (source lines 350–439)
-- ===========================================================================

/-- `MAX_RETRIES` (source line 41). -/
def MAX_RETRIES : Nat := 3

/-- How the success-path JSON walk
`result['candidates'][0]['content']['parts'][0]['text']` turns out for one
HTTP response whose status passed `raise_for_status()`. -/
inductive GenBody where
  /-- `'candidates' in result and result['candidates']` holds and the walk
  reaches a text value. -/
  | candidatesText (t : Str)
  /-- JSON parses but there is no (or an empty) `candidates` list. -/
  | noCandidates
  /-- `.json()` or the nested indexing raises; `msg` models `str(e)`. -/
  | badJson (msg : Str)
deriving Repr, DecidableEq

/-- One observed outcome of `requests.post` (the external transport is
opaque to the module, so it is a parameter of the model). -/
inductive HttpResp where
  | resp (status : Nat) (body : GenBody)
  | timeout
  | exc (msg : Str)
deriving Repr, DecidableEq

/-- `str(e)` of the `HTTPError` that `raise_for_status()` raises on a
4xx/5xx status.  The exact text comes from the `requests` library and is
never inspected by the module, so any status-determined string is a
faithful model. -/
def httpErrorMessage (status : Nat) : Str := str "HTTP error " ++ Nat.toDigits 10 status

/-- Result of one `generate` call: the returned pair plus the number of
underlying `requests.post` attempts and the increment applied to
`self.request_count`. -/
structure GenResult where
  text : Option Str
  error : Option Str
  calls : Nat
  succ : Nat
deriving Repr, DecidableEq

/-- Account for one consumed `requests.post` attempt. -/
def bumpCall (g : GenResult) : GenResult := { g with calls := g.calls + 1 }

/-- The retry loop `for attempt in range(MAX_RETRIES)` of `generate`
(lines 404–439), with `remaining` attempts left (`attempt` is the Python
loop index, so `attempt < MAX_RETRIES - 1` is `0 < remaining`).  Falling
off the loop returns `"Max retries exceeded"`.  Backoff sleeps are pure
delays and are not modelled. -/
def generateAux (transport : Nat → HttpResp) : Nat → Nat → GenResult
  | _, 0 => ⟨none, some (str "Max retries exceeded"), 0, 0⟩
  | attempt, remaining + 1 =>
    match transport attempt with
    | .resp status body =>
        if status = 429 then bumpCall (generateAux transport (attempt + 1) remaining)
        else if status = 503 then bumpCall (generateAux transport (attempt + 1) remaining)
        else if 400 ≤ status ∧ status < 600 then
          -- raise_for_status() raises; caught by the generic `except` branch
          if 0 < remaining then bumpCall (generateAux transport (attempt + 1) remaining)
          else ⟨none, some (httpErrorMessage status), 1, 0⟩
        else
          match body with
          | .candidatesText t => ⟨some (pyStrip t), none, 1, 1⟩
          | .noCandidates => ⟨none, some (str "No response generated"), 1, 0⟩
          | .badJson m =>
              if 0 < remaining then bumpCall (generateAux transport (attempt + 1) remaining)
              else ⟨none, some m, 1, 0⟩
    | .timeout =>
        if 0 < remaining then bumpCall (generateAux transport (attempt + 1) remaining)
        else ⟨none, some (str "Request timeout"), 1, 0⟩
    | .exc m =>
        if 0 < remaining then bumpCall (generateAux transport (attempt + 1) remaining)
        else ⟨none, some m, 1, 0⟩

/-- Python truthiness of the optional `api_key` string: `not self.api_key`
holds when the key is absent or empty. -/
def pyFalsyStr : Option Str → Bool
  | none => true
  | some s => s.isEmpty

/-- `GeminiGenerator.generate(prompt)` (lines 381–439).  The prompt only
flows into the opaque request payload, so the transport function absorbs
it; `apiKey` models `self.api_key`. -/
def GeminiGenerator.generate (apiKey : Option Str) (transport : Nat → HttpResp) : GenResult :=
  if pyFalsyStr apiKey then ⟨none, some (str "API key not configured"), 0, 0⟩
  else generateAux transport 0 MAX_RETRIES

lemma generateAux_exclusive (transport : Nat → HttpResp) :
    ∀ remaining attempt,
      ((generateAux transport attempt remaining).text.isSome
        ∧ (generateAux transport attempt remaining).error = none)
      ∨ ((generateAux transport attempt remaining).text = none
        ∧ (generateAux transport attempt remaining).error.isSome) := by
  intro remaining
  induction remaining with
  | zero => intro attempt; right; exact ⟨rfl, rfl⟩
  | succ r ih =>
      intro attempt
      have hbump : ∀ g : GenResult, (bumpCall g).text = g.text ∧ (bumpCall g).error = g.error :=
        fun g => ⟨rfl, rfl⟩
      unfold generateAux
      cases transport attempt with
      | resp status body =>
          simp only
          split
          · simpa [bumpCall] using ih (attempt + 1)
          · split
            · simpa [bumpCall] using ih (attempt + 1)
            · split
              · split
                · simpa [bumpCall] using ih (attempt + 1)
                · right; exact ⟨rfl, rfl⟩
              · cases body with
                | candidatesText t => left; exact ⟨rfl, rfl⟩
                | noCandidates => right; exact ⟨rfl, rfl⟩
                | badJson m =>
                    simp only
                    split
                    · simpa [bumpCall] using ih (attempt + 1)
                    · right; exact ⟨rfl, rfl⟩
      | timeout =>
          simp only
          split
          · simpa [bumpCall] using ih (attempt + 1)
          · right; exact ⟨rfl, rfl⟩
      | exc m =>
          simp only
          split
          · simpa [bumpCall] using ih (attempt + 1)
          · right; exact ⟨rfl, rfl⟩

/-- C5 claim, theorem.
Every return path of `generate` yields exactly one non-null component:
either a present text with a null error, or a null text with a present
error — for every API-key configuration and every behaviour of the
external endpoint (hence for every prompt). -/
theorem generate_exactly_one_non_null (apiKey : Option Str) (transport : Nat → HttpResp) :
    ((GeminiGenerator.generate apiKey transport).text.isSome
      ∧ (GeminiGenerator.generate apiKey transport).error = none)
    ∨ ((GeminiGenerator.generate apiKey transport).text = none
      ∧ (GeminiGenerator.generate apiKey transport).error.isSome) := by
  unfold GeminiGenerator.generate
  split
  · right; exact ⟨rfl, rfl⟩
  · exact generateAux_exclusive transport MAX_RETRIES 0

/-- C7 claim, theorem.
If the endpoint answers HTTP 429 on the first two attempts and succeeds on
the third with candidate text `t`, `generate` returns the trimmed text with
a null error after exactly 3 underlying attempts (and bumps the success
counter once). -/
theorem generate_retries_429_twice_then_succeeds
    (apiKey : Option Str) (transport : Nat → HttpResp) (t : Str)
    (b0 b1 : GenBody)
    (hkey : pyFalsyStr apiKey = false)
    (h0 : transport 0 = .resp 429 b0)
    (h1 : transport 1 = .resp 429 b1)
    (h2 : transport 2 = .resp 200 (.candidatesText t)) :
    GeminiGenerator.generate apiKey transport =
      ⟨some (pyStrip t), none, 3, 1⟩ := by
  unfold GeminiGenerator.generate
  rw [hkey]
  simp only [Bool.false_eq_true, if_false, MAX_RETRIES]
  unfold generateAux
  rw [h0]
  simp only [if_pos rfl]
  unfold generateAux
  rw [h1]
  simp only [if_pos rfl]
  unfold generateAux
  rw [h2]
  norm_num [bumpCall]

/-- C7 claim, witness: a concrete transport that rate-limits twice and then
succeeds with `"  ok  "`, under a configured key. -/
theorem generate_retries_429_twice_then_succeeds_witness :
    pyFalsyStr (some (str "k")) = false
    ∧ GeminiGenerator.generate (some (str "k"))
        (fun a => if a = 0 then .resp 429 .noCandidates
                  else if a = 1 then .resp 429 .noCandidates
                  else .resp 200 (.candidatesText (str "  ok  "))) =
        ⟨some (pyStrip (str "  ok  ")), none, 3, 1⟩ :=
  ⟨by decide,
   generate_retries_429_twice_then_succeeds (some (str "k"))
     (fun a => if a = 0 then .resp 429 .noCandidates
               else if a = 1 then .resp 429 .noCandidates
               else .resp 200 (.candidatesText (str "  ok  ")))
     (str "  ok  ") .noCandidates .noCandidates
     (by decide) (by decide) (by decide) (by decide)⟩

/-- C4 claim, theorem.
For every sequence of get/set operations starting from an empty cache of
positive capacity `M`, the cache holds at most `M` entries; inserting
`M + 1` entries with pairwise-distinct (hashed) keys into an empty cache
evicts exactly the first-inserted (least-recently-used) entry, keeping the
remaining `M` in order; and a `get` that hits promotes its entry to the
most-recently-used end while returning its value. -/
theorem translationCache_lru_discipline
    (hkey : Str → Str) (M : Nat) (ops : List CacheOp)
    (ps : List (Str × Str)) (c : TranslationCache) (t v : Str)
    (hM : 0 < M)
    (hlen : ps.length = M + 1)
    (hnodup : (ps.map (fun p => hkey p.1)).Nodup)
    (hfind : odFind c.cache (hkey t) = some (hkey t, v)) :
    (ops.foldl (cacheApply hkey) (TranslationCache.init M)).cache.length ≤ M
    ∧ (setFold hkey (TranslationCache.init M) ps).cache
        = (ps.map (fun p => (hkey p.1, p.2))).tail
    ∧ TranslationCache.get hkey c t
        = (some v, { c with
            hits := c.hits + 1
            cache := c.cache.eraseP (fun e => e.1 == hkey t) ++ [(hkey t, v)] }) := by
  refine ⟨?_, ?_, ?_⟩
  · have := foldl_cacheApply_bounded hkey ops (TranslationCache.init M) hM (by simp [TranslationCache.init])
    have hms : (ops.foldl (cacheApply hkey) (TranslationCache.init M)).max_size = M := by
      have : ∀ (l : List CacheOp) (c : TranslationCache),
          (l.foldl (cacheApply hkey) c).max_size = c.max_size := by
        intro l
        induction l with
        | nil => intro c; rfl
        | cons op l ih => intro c; rw [List.foldl_cons, ih, cacheApply_max_size]
      exact this ops (TranslationCache.init M)
    omega
  · -- split the insertions into the first M (which fill the cache) and the last one
    obtain ⟨ps₀, plast, rfl⟩ : ∃ ps₀ plast, ps = ps₀ ++ [plast] := by
      rcases List.eq_nil_or_concat ps with h | ⟨ps₀, plast, h⟩
      · subst h; simp at hlen
      · exact ⟨ps₀, plast, by simpa [List.concat_eq_append] using h⟩
    have hlen₀ : ps₀.length = M := by simpa using hlen
    have hnodup₀ : ((TranslationCache.init M).cache.map Prod.fst
        ++ ps₀.map (fun p => hkey p.1)).Nodup := by
      simp [TranslationCache.init]
      have := hnodup
      simp [List.nodup_append] at this
      exact this.1
    have hfill := setFold_fresh hkey ps₀ (TranslationCache.init M)
      (by simp [TranslationCache.init, hlen₀]) hnodup₀
    have hsplit : setFold hkey (TranslationCache.init M) (ps₀ ++ [plast])
        = TranslationCache.set hkey (setFold hkey (TranslationCache.init M) ps₀)
            plast.1 plast.2 := by
      simp [setFold, List.foldl_append]
    rw [hsplit, hfill]
    -- the final set finds the cache full and pops the oldest entry
    unfold TranslationCache.set
    have hfull : (TranslationCache.init M).max_size ≤
        ((TranslationCache.init M).cache ++ ps₀.map (fun p => (hkey p.1, p.2))).length := by
      simp [TranslationCache.init, hlen₀]
    have hfresh : odMem (((TranslationCache.init M).cache
        ++ ps₀.map (fun p => (hkey p.1, p.2))).tail) (hkey plast.1) = false := by
      cases h : odMem _ _ with
      | false => rfl
      | true =>
          exfalso
          have hmem := (odMem_iff _ _).mp h
          have hkmem : hkey plast.1 ∈ ps₀.map (fun p => hkey p.1) := by
            simp only [TranslationCache.init, List.nil_append] at hmem
            obtain ⟨e, he, he1⟩ := List.mem_map.mp hmem
            have he' : e ∈ ps₀.map (fun p => (hkey p.1, p.2)) :=
              (List.tail_sublist _).mem he
            obtain ⟨q, hq, hq2⟩ := List.mem_map.mp he'
            exact List.mem_map.mpr ⟨q, hq, by rw [← he1, ← hq2]⟩
          have hdisj := (List.nodup_append.mp (by simpa using hnodup)).2.2
          exact hdisj hkmem (by simp)
    simp only [hfull, if_pos, odSet, hfresh, Bool.false_eq_true, if_neg, not_false_iff]
    simp [TranslationCache.init]
    cases ps₀ with
    | nil => simp at hlen₀; omega
    | cons q qs => simp
  · unfold TranslationCache.get
    rw [hfind]
    unfold odMoveToEnd
    unfold odFind at hfind
    rw [hfind]

/-- C4 claim, witness: a concrete run at capacity 2 with identity hashing —
three distinct insertions evict exactly the oldest, a hit promotes. -/
theorem translationCache_lru_discipline_witness :
    (0 < 2 ∧ ([(str "a", str "1"), (str "b", str "2"), (str "c", str "3")] : List (Str × Str)).length = 2 + 1)
    ∧ (([CacheOp.set (str "a") (str "x"), CacheOp.get (str "a"), CacheOp.set (str "b") (str "y"),
         CacheOp.set (str "c") (str "z")].foldl (cacheApply id) (TranslationCache.init 2)).cache.length ≤ 2
    ∧ (setFold id (TranslationCache.init 2)
         [(str "a", str "1"), (str "b", str "2"), (str "c", str "3")]).cache
        = ([(str "a", str "1"), (str "b", str "2"), (str "c", str "3")].map
            (fun p => (id p.1, p.2))).tail
    ∧ TranslationCache.get id
        { cache := [(str "a", str "1"), (str "b", str "2")], max_size := 2, hits := 5, misses := 7 }
        (str "a")
        = (some (str "1"),
           { cache := [(str "a", str "1"), (str "b", str "2")].eraseP (fun e => e.1 == id (str "a"))
               ++ [(id (str "a"), str "1")],
             max_size := 2, hits := 5 + 1, misses := 7 })) :=
  ⟨⟨by decide, by decide⟩,
   translationCache_lru_discipline id 2
     [CacheOp.set (str "a") (str "x"), CacheOp.get (str "a"), CacheOp.set (str "b") (str "y"),
      CacheOp.set (str "c") (str "z")]
     [(str "a", str "1"), (str "b", str "2"), (str "c", str "3")]
     { cache := [(str "a", str "1"), (str "b", str "2")], max_size := 2, hits := 5, misses := 7 }
     (str "a") (str "1")
     (by decide) (by decide) (by decide) (by decide)⟩

-- ===========================================================================
-- Reassembly — `RAGTranslationPipeline._combine_chunks` (source lines 739–760)
-- ===========================================================================

/-- Python `range(start, 10, -5)`: the candidate overlap sizes actually
tried by `_combine_chunks` — `start, start-5, …`, all strictly greater
than 10 (the stop value is exclusive). -/
def overlapCandidates (start : Nat) : List Nat :=
  (List.range ((start - 10 + 4) / 5)).map (fun i => start - 5 * i)

/-- The match test of the inner loop: case-insensitive equality of the
last `k` characters of `result` with the first `k` of `chunk`. -/
def overlapMatches (result chunk : Str) (k : Nat) : Bool :=
  pyLower (takeRight k result) == pyLower (chunk.take k)

/-- The inner `for overlap_size in range(...)` loop with its `break`:
the first (largest-first scan) matching candidate, if any. -/
def findOverlap (result chunk : Str) : Option Nat :=
  (overlapCandidates (min 50 (min result.length chunk.length))).find?
    (overlapMatches result chunk)

/-- One iteration of the outer loop of `_combine_chunks`. -/
def combineStep (result chunk : Str) : Str :=
  match findOverlap result chunk with
  | some k => result ++ chunk.drop k
  | none => result ++ str " " ++ chunk

/-- `RAGTranslationPipeline._combine_chunks(chunks)` (lines 739–760). -/
def combineChunks : List Str → Str
  | [] => []
  | c :: cs => pyStrip (cs.foldl combineStep c)

/-- The claim's wording of the candidate scan with an inclusive lower bound
of 10 (`min(50,…)` down to 10, step 5) — for comparison with the code. -/
def claimedCandidates (start : Nat) : List Nat :=
  if start < 10 then [] else (List.range ((start - 10) / 5 + 1)).map (fun i => start - 5 * i)

/-- The claim's per-chunk merge, candidates inclusive of 10. -/
def claimedCombineStep (result chunk : Str) : Str :=
  match (claimedCandidates (min 50 (min result.length chunk.length))).find?
      (overlapMatches result chunk) with
  | some k => result ++ chunk.drop k
  | none => result ++ str " " ++ chunk

/-- `combine_chunks` as the claim describes it (overlap lengths searched
down to 10 inclusive). -/
def claimedCombineChunks : List Str → Str
  | [] => []
  | c :: cs => pyStrip (cs.foldl claimedCombineStep c)

/-- The claim's merge, amended: the scan goes from `min(50,|result|,|chunk|)`
downward in steps of 5 but stops strictly above 10 (the code's `range`
excludes its stop value), taking the largest matching candidate. -/
def amendedCombineStep (result chunk : Str) : Str :=
  match ((overlapCandidates (min 50 (min result.length chunk.length))).filter
      (overlapMatches result chunk)).max? with
  | some k => result ++ chunk.drop k
  | none => result ++ str " " ++ chunk

/-- `combine_chunks` per the amended claim. -/
def amendedCombineChunks : List Str → Str
  | [] => []
  | c :: cs => pyStrip (cs.foldl amendedCombineStep c)

lemma max?_cons_of_le {a : Nat} {xs : List Nat} (h : ∀ x ∈ xs, x ≤ a) :
    (a :: xs).max? = some a := by
  induction xs generalizing a with
  | nil => rfl
  | cons x xs ih =>
      have hx : x ≤ a := h x (by simp)
      have : max a x = a := by omega
      calc (a :: x :: xs).max? = (max a x :: xs).max? := rfl
        _ = (a :: xs).max? := by rw [this]
        _ = some a := ih (fun y hy => h y (by simp [hy]))

lemma find?_eq_filter_max? (p : Nat → Bool) :
    ∀ l : List Nat, l.Pairwise (· > ·) → l.find? p = (l.filter p).max? := by
  intro l
  induction l with
  | nil => intro _; rfl
  | cons a l ih =>
      intro hpw
      have hpl := List.Pairwise.of_cons hpw
      have hgt : ∀ b ∈ l, a > b := (List.pairwise_cons.mp hpw).1
      rw [List.find?_cons, List.filter_cons]
      cases hp : p a with
      | true =>
          simp only [if_pos rfl]
          exact (max?_cons_of_le (fun x hx =>
            Nat.le_of_lt (hgt x (List.mem_of_mem_filter hx)))).symm
      | false =>
          rw [if_neg (by simp)]
          exact ih hpl

lemma overlapCandidates_pairwise (start : Nat) :
    (overlapCandidates start).Pairwise (· > ·) := by
  unfold overlapCandidates
  refine List.pairwise_iff_get.mpr ?_
  intro i j hij
  have hj : (j : Nat) < (start - 10 + 4) / 5 := by
    have := j.isLt
    simpa using this
  have hj5 : ((j : Nat) + 1) * 5 ≤ start - 10 + 4 :=
    (Nat.le_div_iff_mul_le (by norm_num)).mp hj
  have hij' : (i : Nat) < (j : Nat) := hij
  simp only [List.get_eq_getElem, List.getElem_map, List.getElem_range]
  omega

lemma combineStep_eq_amended : combineStep = amendedCombineStep := by
  funext result chunk
  unfold combineStep amendedCombineStep findOverlap
  rw [find?_eq_filter_max? _ _ (overlapCandidates_pairwise _)]

/-- C6 claim, theorem (amended).
`combine_chunks` starts with the first string and, for each subsequent
chunk, appends the chunk's remainder past the largest candidate overlap
length — scanned from `min(50, len(result), len(chunk))` downward in steps
of 5, trying only candidates strictly greater than 10 (the code's
`range(…, 10, -5)` excludes its stop) — whose case-insensitive
suffix-of-result equals the prefix-of-chunk, and appends the chunk
separated by a single space when no such candidate matches; the claim's
quoted example holds. -/
theorem combineChunks_amended_spec (chunks : List Str) :
    combineChunks chunks = amendedCombineChunks chunks
    ∧ combineChunks [str "the quick brown fox jumps",
        str "brown fox jumps over the lazy dog"]
      = str "the quick brown fox jumps over the lazy dog" := by
  constructor
  · cases chunks with
    | nil => rfl
    | cons c cs => unfold combineChunks amendedCombineChunks; rw [combineStep_eq_amended]
  · decide

/-- C6 claim, counterexample.
On a pair whose only case-insensitive overlap is exactly 10 characters
long, the code appends with a space (it never tries candidate 10), while
the claim's description (searching down to 10) would have merged; so the
claim as stated disagrees with the code here. -/
theorem combineChunks_claim_counterexample :
    combineChunks [str "0123456789", str "0123456789abcdef"]
      = str "0123456789 0123456789abcdef"
    ∧ claimedCombineChunks [str "0123456789", str "0123456789abcdef"]
      = str "0123456789abcdef"
    ∧ combineChunks [str "0123456789", str "0123456789abcdef"]
      ≠ claimedCombineChunks [str "0123456789", str "0123456789abcdef"] := by
  refine ⟨by decide, by decide, by decide⟩

-- ===========================================================================
-- 10. EVALUATION — `TranslationQuality.detect_issues` (source lines 511–526)
-- ===========================================================================

/-- `TranslationQuality.detect_issues(translated)`: the issue tags, in the
order the code appends them. -/
def detect_issues (translated : Str) : List Str :=
  (if pyContains translated (str "[?]")
    then [str "Contains uncertain translations"] else [])
  ++ (if translated.length < 10 then [str "Translation too short"] else [])
  ++ (if pyContains translated (str "Translation unavailable")
    then [str "Translation failed for some chunks"] else [])

/-- The placeholder `translate_document` appends for a failed chunk
(line 613): `"[Translation failed: " + chunk.text[:100] + "...]"`. -/
def failurePlaceholder (chunkText : Str) : Str :=
  str "[Translation failed: " ++ chunkText.take 100 ++ str "...]"

/-- An infix of a concatenation lies in the left part, in the right part,
or straddles the junction as a nonempty suffix of the left glued to a
nonempty prefix of the right. -/
lemma infix_append_cases {t a b : Str} (h : t <:+: a ++ b) :
    t <:+: a ∨ t <:+: b
    ∨ ∃ t₁ t₂, t = t₁ ++ t₂ ∧ t₁ ≠ [] ∧ t₂ ≠ [] ∧ t₁ <:+ a ∧ t₂ <+: b := by
  obtain ⟨s, u, heq⟩ := h
  by_cases hst : s.length + t.length ≤ a.length
  · left
    have h1 : (a ++ b).take a.length = a := List.take_left a b
    rw [← heq, List.append_assoc, List.take_append_eq_append_take,
        List.take_of_length_le (by omega), List.take_append_eq_append_take,
        List.take_of_length_le (by omega)] at h1
    exact ⟨s, u.take (a.length - s.length - t.length),
      by rw [List.append_assoc]; exact h1⟩
  · by_cases hs : a.length ≤ s.length
    · right; left
      have h1 : (a ++ b).drop a.length = b := List.drop_left a b
      rw [← heq, List.append_assoc, List.drop_append_eq_append_drop,
          Nat.sub_eq_zero_of_le hs, List.drop_zero] at h1
      exact ⟨s.drop a.length, u, by rw [List.append_assoc]; exact h1⟩
    · right; right
      push_neg at hs
      have hAk : a.length - s.length < t.length := by omega
      have h1 : (a ++ b).take a.length = a := List.take_left a b
      rw [← heq, List.append_assoc, List.take_append_eq_append_take,
          List.take_of_length_le (by omega), List.take_append_eq_append_take,
          Nat.sub_eq_zero_of_le (by omega : a.length - s.length ≤ t.length),
          List.take_zero, List.append_nil] at h1
      have h2 : (a ++ b).drop a.length = b := List.drop_left a b
      rw [← heq, List.append_assoc, List.drop_append_eq_append_drop,
          List.drop_eq_nil_of_le (by omega : s.length ≤ a.length),
          List.drop_append_eq_append_drop,
          Nat.sub_eq_zero_of_le (by omega : a.length - s.length ≤ t.length),
          List.drop_zero, List.nil_append] at h2
      refine ⟨t.take (a.length - s.length), t.drop (a.length - s.length),
        (List.take_append_drop _ t).symm, ?_, ?_, ⟨s, h1⟩, ⟨u, h2⟩⟩
      · intro hnil
        rcases List.take_eq_nil_iff.mp hnil with h0 | h0
        · omega
        · rw [h0] at hAk; simp at hAk
      · intro hnil
        have := List.drop_eq_nil_iff.mp hnil
        omega

lemma detect_issues_tag_mem (t : Str) :
    ((str "Translation failed for some chunks") ∈ detect_issues t)
      ↔ (str "Translation unavailable") <:+: t := by
  have hdec : ((str "Translation unavailable") <:+: t)
      ↔ pyContains t (str "Translation unavailable") = true := by
    simp [pyContains]
  rw [hdec]
  unfold detect_issues
  cases h1 : pyContains t (str "[?]") <;>
    cases h2 : pyContains t (str "Translation unavailable") <;>
      by_cases h3 : t.length < 10 <;>
        simp [h1, h2, h3] <;> decide

/-- The fixed wrapper of the failure placeholder cannot complete the
trigger substring across either junction: the trigger sits inside the
placeholder exactly when it sits inside the quoted 100-character excerpt. -/
lemma trigger_infix_placeholder (txt : Str) :
    (str "Translation unavailable") <:+: failurePlaceholder txt
      ↔ (str "Translation unavailable") <:+: txt.take 100 := by
  constructor
  · intro h
    unfold failurePlaceholder at h
    rw [List.append_assoc] at h
    rcases infix_append_cases h with h1 | h1 | ⟨t1, t2, ht, hn1, hn2, hsuf, hpre⟩
    · exact absurd h1 (by decide)
    · rcases infix_append_cases h1 with h2 | h2 | ⟨t1, t2, ht, hn1, hn2, hsuf, hpre⟩
      · exact h2
      · exact absurd h2 (by decide)
      · exfalso
        have ht2 : t2 = (str "Translation unavailable").drop t1.length := by
          rw [ht, List.drop_left]
        have hb : t1.length < (str "Translation unavailable").length := by
          by_contra hge
          push_neg at hge
          rw [ht2, List.drop_eq_nil_of_le hge] at hn2
          exact hn2 rfl
        have hall : ∀ k, k < 23 →
            ¬ ((str "Translation unavailable").drop k <+: str "...]") := by decide
        have h23 : (str "Translation unavailable").length = 23 := rfl
        exact hall t1.length (by omega) (ht2 ▸ hpre)
    · exfalso
      have ht1 : t1 = (str "Translation unavailable").take t1.length := by
        rw [ht, List.take_left]
      have hb : t1.length ≤ (str "Translation unavailable").length := by
        have := congrArg List.length ht
        simp only [List.length_append] at this
        omega
      have hpos : 1 ≤ t1.length := by
        cases t1 with
        | nil => exact absurd rfl hn1
        | cons x xs => simp
      have hall : ∀ k, k < 24 → 1 ≤ k →
          ¬ ((str "Translation unavailable").take k <:+ str "[Translation failed: ") := by
        decide
      have h23 : (str "Translation unavailable").length = 23 := rfl
      exact hall t1.length (by omega) hpos (ht1 ▸ hsuf)
  · intro h
    unfold failurePlaceholder
    exact h.trans ⟨str "[Translation failed: ", str "...]", rfl⟩

/-- C10 claim, theorem (amended).
`detect_issues` returns the tag `"Translation failed for some chunks"` iff
the translated text contains the substring `"Translation unavailable"`;
and the failure placeholder inserted by `translate_document` triggers that
tag exactly when the failed chunk's own first-100-character excerpt
contains `"Translation unavailable"` (the fixed wrapper text alone never
completes the trigger). -/
theorem detect_issues_failure_tag (t txt : Str) :
    (((str "Translation failed for some chunks") ∈ detect_issues t)
      ↔ (str "Translation unavailable") <:+: t)
    ∧ (((str "Translation failed for some chunks") ∈ detect_issues (failurePlaceholder txt))
      ↔ (str "Translation unavailable") <:+: txt.take 100) :=
  ⟨detect_issues_tag_mem t,
   (detect_issues_tag_mem (failurePlaceholder txt)).trans (trigger_infix_placeholder txt)⟩

/-- C10 claim, counterexample.
A failed chunk whose own text begins with `"Translation unavailable"`
produces a placeholder that DOES trigger the tag, contradicting the
claim's assertion that the placeholder never triggers it. -/
theorem detect_issues_placeholder_triggers :
    (str "Translation failed for some chunks")
      ∈ detect_issues (failurePlaceholder (str "Translation unavailable in source")) := by
  decide

-- ===========================================================================
-- 2. EMBEDDINGS — `SimpleEmbedder.embed` (source lines 64–106)
-- ===========================================================================

/-- The character trigrams `[text[i:i+3] for i in range(len(text)-2)]`. -/
def trigrams (t : Str) : List Str :=
  (List.range (t.length - 2)).map (fun i => (t.drop i).take 3)

/-- `vector[idx] += w` on the accumulator list.  In the source `idx` is
always `hash(…) % dim < dim`, in range (our theorems carry `0 < dim`). -/
def addAt (v : List ℚ) (i : Nat) (w : ℚ) : List ℚ :=
  v.set i (v.getD i 0 + w)

/-- The accumulation loops of `embed` (lines 86–97): weight 1 per trigram
occurrence and 1/2 per word occurrence at coordinate `hash(…) % dim`,
starting from the zero vector.  `hash` models Python's builtin string
hash, opaque to the module. -/
def rawVector (hash : Str → Nat) (dim : Nat) (t : Str) : List ℚ :=
  (pySplit t).foldl (fun v w => addAt v (hash w % dim) (1/2))
    ((trigrams t).foldl (fun v g => addAt v (hash g % dim) 1)
      (List.replicate dim (0:ℚ)))

/-- `sum(x*x for x in vector)`. -/
def sumSq (v : List ℚ) : ℚ := (v.map (fun x => x * x)).sum

open scoped Classical in
/-- The normalisation `magnitude = math.sqrt(sum(x*x for x in vector)) or 1.0;
return [x / magnitude for x in vector]` (lines 99–101), over exact reals
(`or 1.0` replaces a zero magnitude by 1). -/
noncomputable def normalize (v : List ℚ) : List ℝ :=
  v.map (fun x : ℚ =>
    (x : ℝ) / (if Real.sqrt ((sumSq v : ℚ) : ℝ) = 0 then 1 else Real.sqrt ((sumSq v : ℚ) : ℝ)))

/-- `SimpleEmbedder.embed(text)` (lines 75–101): the zero vector for falsy
(empty) input, otherwise lowercase + strip, accumulate, normalise. -/
noncomputable def embed (hash : Str → Nat) (dim : Nat) (text : Str) : List ℝ :=
  if text = [] then List.replicate dim (0:ℝ)
  else normalize (rawVector hash dim (pyStrip (pyLower text)))

/-- Euclidean norm of a real vector. -/
noncomputable def l2norm (v : List ℝ) : ℝ := Real.sqrt ((v.map (fun x => x * x)).sum)

lemma addAt_length (v : List ℚ) (i : Nat) (w : ℚ) :
    (addAt v i w).length = v.length := List.length_set ..

lemma addAt_sum {v : List ℚ} {i : Nat} (h : i < v.length) (w : ℚ) :
    (addAt v i w).sum = v.sum + w := by
  unfold addAt
  induction v generalizing i with
  | nil => simp at h
  | cons x xs ih =>
      cases i with
      | zero => simp [List.getD]; ring
      | succ n =>
          simp only [List.set_cons_succ, List.sum_cons, List.getD_cons_succ]
          rw [ih (by simpa using h)]
          ring

lemma addAt_nonneg {v : List ℚ} {w : ℚ} (hv : ∀ x ∈ v, 0 ≤ x) (hw : 0 ≤ w)
    (i : Nat) : ∀ x ∈ addAt v i w, 0 ≤ x := by
  intro x hx
  rcases List.mem_or_eq_of_mem_set hx with h | h
  · exact hv x h
  · subst h
    have hd : 0 ≤ v.getD i 0 := by
      by_cases hlt : i < v.length
      · rw [List.getD_eq_getElem v 0 hlt]
        exact hv _ (List.getElem_mem hlt)
      · rw [List.getD_eq_default v 0 (by omega)]
    linarith

/-- Both accumulation folds preserve the vector's length. -/
lemma foldl_addAt_length (idx : Str → Nat) (w : ℚ) :
    ∀ (gs : List Str) (v : List ℚ),
      (gs.foldl (fun v g => addAt v (idx g) w) v).length = v.length := by
  intro gs
  induction gs with
  | nil => intro v; rfl
  | cons g gs ih => intro v; rw [List.foldl_cons, ih, addAt_length]

/-- Both accumulation folds preserve nonnegativity of all coordinates. -/
lemma foldl_addAt_nonneg (idx : Str → Nat) {w : ℚ} (hw : 0 ≤ w) :
    ∀ (gs : List Str) (v : List ℚ), (∀ x ∈ v, 0 ≤ x) →
      ∀ x ∈ gs.foldl (fun v g => addAt v (idx g) w) v, 0 ≤ x := by
  intro gs
  induction gs with
  | nil => intro v hv; exact hv
  | cons g gs ih =>
      intro v hv
      rw [List.foldl_cons]
      exact ih _ (addAt_nonneg hv hw _)

/-- Each in-range accumulation adds exactly its weight to the total. -/
lemma foldl_addAt_sum (idx : Str → Nat) (w : ℚ) {dim : Nat}
    (hidx : ∀ g, idx g < dim) :
    ∀ (gs : List Str) (v : List ℚ), v.length = dim →
      (gs.foldl (fun v g => addAt v (idx g) w) v).sum = v.sum + gs.length * w := by
  intro gs
  induction gs with
  | nil => intro v _; simp
  | cons g gs ih =>
      intro v hlen
      rw [List.foldl_cons, ih _ (by rw [addAt_length]; exact hlen),
        addAt_sum (by rw [hlen]; exact hidx g) w]
      simp only [List.length_cons]
      push_cast
      ring

/-- A nonnegative vector with positive total has positive sum of squares. -/
lemma sumSq_pos_of_sum_pos {v : List ℚ} (hv : ∀ x ∈ v, 0 ≤ x) (h : 0 < v.sum) :
    0 < sumSq v := by
  induction v with
  | nil => simp at h
  | cons x xs ih =>
      have hx : 0 ≤ x := hv x (by simp)
      have hxs : ∀ y ∈ xs, 0 ≤ y := fun y hy => hv y (by simp [hy])
      have hsq : 0 ≤ sumSq xs := by
        unfold sumSq
        apply List.sum_nonneg
        intro a ha
        obtain ⟨y, hy, rfl⟩ := List.mem_map.mp ha
        exact mul_self_nonneg y
      by_cases hxpos : 0 < x
      · have : 0 < x * x := mul_pos hxpos hxpos
        unfold sumSq at hsq ⊢
        simp only [List.map_cons, List.sum_cons]
        linarith
      · have hx0 : x = 0 := le_antisymm (not_lt.mp hxpos) hx
        subst hx0
        simp only [List.sum_cons, zero_add] at h
        have := ih hxs h
        unfold sumSq at this ⊢
        simp only [List.map_cons, List.sum_cons, mul_zero, zero_add]
        linarith

lemma sumSq_nonneg (v : List ℚ) : 0 ≤ sumSq v := by
  unfold sumSq
  apply List.sum_nonneg
  intro a ha
  obtain ⟨y, hy, rfl⟩ := List.mem_map.mp ha
  exact mul_self_nonneg y

/-- The first character surviving `dropWhile` fails the predicate. -/
lemma dropWhile_head_false {p : Char → Bool} :
    ∀ (s : Str) {c : Char} {cs : Str}, List.dropWhile p s = c :: cs → p c = false := by
  intro s
  induction s with
  | nil => intro c cs h; simp [List.dropWhile] at h
  | cons a as ih =>
      intro c cs h
      rw [List.dropWhile_cons] at h
      by_cases hp : p a = true
      · rw [if_pos hp] at h; exact ih h
      · rw [if_neg hp] at h
        cases h
        simpa using hp


/-- A stripped nonempty string splits into at least one word. -/
lemma pySplit_ne_nil_of_lstrip (s : Str) (h : lstrip s ≠ []) :
    pySplit (lstrip s) ≠ [] := by
  have key : ∀ (u : Str) (acc : Str), (∃ c ∈ u, ¬ c.isWhitespace = true) ∨ acc ≠ [] →
      pySplitGo u acc ≠ [] := by
    intro u
    induction u with
    | nil =>
        intro acc h
        rcases h with ⟨c, hc, _⟩ | hacc
        · simp at hc
        · simp [pySplitGo, hacc]
    | cons c cs ih =>
        intro acc h
        unfold pySplitGo
        by_cases hws : c.isWhitespace = true
        · rw [if_pos hws]
          by_cases hacc : acc = []
          · rw [if_pos hacc]
            apply ih
            left
            rcases h with ⟨d, hd, hdw⟩ | hacc'
            · rcases List.mem_cons.mp hd with rfl | hd'
              · exact absurd hws hdw
              · exact ⟨d, hd', hdw⟩
            · exact absurd hacc hacc'
          · rw [if_neg hacc]
            simp
        · rw [if_neg hws]
          apply ih
          right
          simp
  unfold pySplit
  apply key
  left
  obtain ⟨c, cs, hcons⟩ := List.exists_cons_of_ne_nil h
  refine ⟨c, by rw [hcons]; simp, ?_⟩
  unfold lstrip at hcons
  simp [dropWhile_head_false s hcons]

lemma sumSq_replicate_zero (n : Nat) : sumSq (List.replicate n (0:ℚ)) = 0 := by
  unfold sumSq
  rw [List.map_replicate]
  simp

lemma normalize_replicate_zero (n : Nat) :
    normalize (List.replicate n (0:ℚ)) = List.replicate n (0:ℝ) := by
  unfold normalize
  rw [sumSq_replicate_zero]
  simp

/-- Normalising a vector of positive sum of squares yields a unit vector. -/
lemma l2norm_normalize {v : List ℚ} (h : 0 < sumSq v) :
    l2norm (normalize v) = 1 := by
  have hS : (0:ℝ) < ((sumSq v : ℚ) : ℝ) := by exact_mod_cast h
  have hm : Real.sqrt ((sumSq v : ℚ) : ℝ) ≠ 0 := by
    have := Real.sqrt_pos.mpr hS
    linarith
  unfold l2norm normalize
  rw [if_neg hm, List.map_map]
  have hfun : ((fun x => x * x) ∘ fun x : ℚ => (x:ℝ) / Real.sqrt ((sumSq v : ℚ) : ℝ))
      = fun x : ℚ => ((x:ℝ) * (x:ℝ)) * (1 / (((sumSq v : ℚ) : ℝ))) := by
    funext x
    have hms : Real.sqrt ((sumSq v : ℚ) : ℝ) * Real.sqrt ((sumSq v : ℚ) : ℝ)
        = ((sumSq v : ℚ) : ℝ) := Real.mul_self_sqrt (le_of_lt hS)
    simp only [Function.comp_apply, div_mul_div_comm, hms]
    ring
  rw [hfun, List.sum_map_mul_right]
  have hc : (v.map (fun x : ℚ => (x:ℝ) * (x:ℝ))).sum = ((sumSq v : ℚ) : ℝ) := by
    unfold sumSq
    rw [Rat.cast_list_sum, List.map_map]
    refine congrArg List.sum (List.map_congr_left ?_)
    intro x _
    simp [Function.comp]
  rw [hc, mul_one_div, div_self (ne_of_gt hS), Real.sqrt_one]

lemma rawVector_length (hash : Str → Nat) (dim : Nat) (t : Str) :
    (rawVector hash dim t).length = dim := by
  unfold rawVector
  rw [foldl_addAt_length, foldl_addAt_length, List.length_replicate]

lemma rawVector_nonneg (hash : Str → Nat) (dim : Nat) (t : Str) :
    ∀ x ∈ rawVector hash dim t, 0 ≤ x := by
  unfold rawVector
  apply foldl_addAt_nonneg _ (by norm_num)
  apply foldl_addAt_nonneg _ (by norm_num)
  intro x hx
  rw [List.eq_of_mem_replicate hx]

lemma rawVector_sum (hash : Str → Nat) {dim : Nat} (hdim : 0 < dim) (t : Str) :
    (rawVector hash dim t).sum
      = (trigrams t).length * 1 + (pySplit t).length * (1/2 : ℚ) := by
  unfold rawVector
  rw [foldl_addAt_sum _ _ (fun g => Nat.mod_lt _ hdim) _ _
        (by rw [foldl_addAt_length, List.length_replicate]),
      foldl_addAt_sum _ _ (fun g => Nat.mod_lt _ hdim) _ _ (List.length_replicate ..)]
  simp [List.sum_replicate]

lemma rawVector_nil (hash : Str → Nat) (dim : Nat) :
    rawVector hash dim [] = List.replicate dim (0:ℚ) := rfl

/-- C3 claim, theorem (amended).
`embed` always returns a vector of dimension `dim`; its Euclidean norm is
exactly 1 whenever the lowered-and-stripped text is nonempty (i.e. the
text contains some non-whitespace character); and it is the zero vector
exactly when the text is empty **or whitespace-only** — not only when the
text is empty, as the original claim stated. -/
theorem embed_unit_norm (hash : Str → Nat) (dim : Nat) (text : Str)
    (hdim : 0 < dim) :
    (embed hash dim text).length = dim
    ∧ (pyStrip (pyLower text) ≠ [] → l2norm (embed hash dim text) = 1)
    ∧ (pyStrip (pyLower text) = [] → embed hash dim text = List.replicate dim 0) := by
  refine ⟨?_, ?_, ?_⟩
  · unfold embed
    split
    · rw [List.length_replicate]
    · unfold normalize
      rw [List.length_map, rawVector_length]
  · intro hne
    have htext : text ≠ [] := by
      intro h
      rw [h] at hne
      exact hne rfl
    unfold embed
    rw [if_neg htext]
    apply l2norm_normalize
    apply sumSq_pos_of_sum_pos (rawVector_nonneg hash dim (pyStrip (pyLower text)))
    rw [rawVector_sum hash hdim]
    have hw : (pySplit (pyStrip (pyLower text))).length ≥ 1 := by
      have := pySplit_ne_nil_of_lstrip (rstrip (pyLower text)) hne
      rcases List.exists_cons_of_ne_nil this with ⟨w, ws, hcons⟩
      unfold pyStrip
      rw [hcons]
      simp
    have htri : (0:ℚ) ≤ (trigrams (pyStrip (pyLower text))).length := by positivity
    have : (1:ℚ)/2 ≤ (pySplit (pyStrip (pyLower text))).length * (1/2 : ℚ) := by
      have : (1:ℚ) ≤ (pySplit (pyStrip (pyLower text))).length := by exact_mod_cast hw
      nlinarith
    linarith
  · intro hnil
    unfold embed
    split
    · rfl
    · rw [hnil, rawVector_nil, normalize_replicate_zero]

/-- C3 claim, witness: at the default dimension 256 the amended statement
holds for the concrete text `"ab"` (hash instantiated to a constant
function, on which nothing in the statement depends). -/
theorem embed_unit_norm_witness :
    0 < 256
    ∧ ((embed (fun _ => 0) 256 (str "ab")).length = 256
      ∧ (pyStrip (pyLower (str "ab")) ≠ [] → l2norm (embed (fun _ => 0) 256 (str "ab")) = 1)
      ∧ (pyStrip (pyLower (str "ab")) = [] →
          embed (fun _ => 0) 256 (str "ab") = List.replicate 256 0)) :=
  ⟨by decide, embed_unit_norm (fun _ => 0) 256 (str "ab") (by decide)⟩

/-- C3 claim, counterexample.
The one-character text `" "` is non-empty, yet `embed` maps it to the zero
vector (its strip is empty, so the accumulator never fires and the
`or 1.0` guard divides zero by one), contradicting "the zero vector only
when the source text is empty".  The hash function is never consulted on
this input, so a constant hash instantiates it faithfully. -/
theorem embed_whitespace_zero_vector :
    str " " ≠ [] ∧ embed (fun _ => 0) 256 (str " ") = List.replicate 256 (0:ℝ) := by
  constructor
  · decide
  · unfold embed
    rw [if_neg (by decide)]
    have ht : pyStrip (pyLower (str " ")) = [] := by decide
    rw [ht, rawVector_nil, normalize_replicate_zero]

-- ===========================================================================
-- 5. CHUNKING — `SmartChunker.chunk_document` (source lines 191–293)
-- ===========================================================================

/-- `CHUNK_SIZE` (source line 38). -/
def CHUNK_SIZE : Nat := 1200

/-- `OVERLAP_SIZE` (source line 39). -/
def OVERLAP_SIZE : Nat := 150

/-- The sentence-ending characters of the boundary regex
`(?<=[.!?।॥])\s+` (line 291). -/
def isEnder : Option Char → Bool
  | none => false
  | some p => p = '.' || p = '!' || p = '?' || p = '।' || p = '॥'

/-- One pass of `re.split(r'(?<=[.!?।॥])\s+', text)`: a segment ends at
every maximal whitespace run whose first character is preceded by a
sentence ender.  `prev` is the previously scanned character, `inRun`
records whether we are inside a splitting whitespace run, `acc` the
current segment reversed. -/
def splitSentencesGo : Option Char → Bool → Str → Str → List Str
  | _, _, [], acc => [acc.reverse]
  | _, true, c :: cs, acc =>
      if c.isWhitespace then splitSentencesGo (some c) true cs acc
      else splitSentencesGo (some c) false cs (c :: acc)
  | prev, false, c :: cs, acc =>
      if isEnder prev && c.isWhitespace then
        acc.reverse :: splitSentencesGo (some c) true cs []
      else splitSentencesGo (some c) false cs (c :: acc)

/-- `SmartChunker._split_into_sentences(text)` (lines 287–293): split,
strip each segment, drop the empty ones. -/
def splitIntoSentences (text : Str) : List Str :=
  ((splitSentencesGo none false text []).map pyStrip).filter (fun s => !s.isEmpty)

/-- `pre <+: s` test returning the remainder. -/
def stripPrefixStr (pre s : Str) : Option Str :=
  if pre <+: s then some (s.drop pre.length) else none

/-- Numeric value of a digit string (`int(...)` on the captured group). -/
def digitsToNat (ds : Str) : Nat :=
  ds.foldl (fun n c => n * 10 + (c.toNat - '0'.toNat)) 0

/-- Try to read a page marker `--- Page N ---` (the regex
`--- Page \d+ ---`, line 217) at the head of `s`; on success return the
page number and the remaining text. -/
def parseMarker (s : Str) : Option (Nat × Str) :=
  match stripPrefixStr (str "--- Page ") s with
  | none => none
  | some r =>
      let ds := r.takeWhile Char.isDigit
      if ds = [] then none
      else
        match stripPrefixStr (str " ---") (r.drop ds.length) with
        | none => none
        | some r2 => some (digitsToNat ds, r2)

/-- Python-dict assignment on an insertion-ordered association list:
update in place when the key exists, else append. -/
def assocSet (l : List (Nat × Nat)) (k v : Nat) : List (Nat × Nat) :=
  if l.any (fun e => e.1 == k) then l.map (fun e => if e.1 == k then (k, v) else e)
  else l ++ [(k, v)]

/-- The page-marker scan of `chunk_document` (lines 216–232): splits out
`--- Page N ---` markers, concatenates the non-marker parts into
`full_text` and records `page_positions[start_pos] = current_page`, one
entry per non-marker part (empty parts collapse by dict-key overwrite).
`fuel` only bounds the recursion; `pageScan` supplies enough for the
whole text. -/
def pageScanGo : Nat → Str → Str → List (Nat × Nat) → (Str × List (Nat × Nat))
  | 0, s, acc, positions => (acc ++ s, positions)
  | _ + 1, [], acc, positions => (acc, positions)
  | fuel + 1, c :: cs, acc, positions =>
      match parseMarker (c :: cs) with
      | some (n, rest) => pageScanGo fuel rest acc (assocSet positions acc.length n)
      | none => pageScanGo fuel cs (acc ++ [c]) positions

/-- `full_text` and `page_positions` of `chunk_document`; the initial
entry `(0, 1)` is the one recorded for the leading non-marker part
(`current_page` starts at 1). -/
def pageScan (text : Str) : Str × List (Nat × Nat) :=
  pageScanGo text.length text [] [(0, 1)]

/-- The `DocumentChunk` dataclass (lines 49–58).  `start_pos`/`end_pos`
are integers: the overlap arithmetic `chunks[-1].end_pos - overlap` can go
negative in Python.  The unused `metadata` bag is omitted. -/
structure DocumentChunk where
  id : Nat
  text : Str
  start_pos : ℤ
  end_pos : ℤ
  page_number : Nat
  embedding : Option (List ℝ)

/-- `page_num` computation (lines 247–250 and 272–275): the last recorded
position `≤ current_start` wins, defaulting to page 1. -/
def pageFor (positions : List (Nat × Nat)) (current_start : ℤ) : Nat :=
  positions.foldl (fun pn e => if (e.1 : ℤ) ≤ current_start then e.2 else pn) 1

/-- Mutable loop state of the sentence-accumulation loop. -/
structure ChunkState where
  chunks : List DocumentChunk
  current_chunk : Str
  current_start : ℤ
  chunk_id : Nat

/-- The guarded chunk emission (`if current_chunk.strip(): chunks.append(…)`,
lines 245–259, repeated for the final flush at 271–283). -/
def emitChunk (positions : List (Nat × Nat)) (st : ChunkState) : ChunkState :=
  if pyStrip st.current_chunk = [] then st
  else
    { st with
      chunks := st.chunks ++ [{
        id := st.chunk_id
        text := pyStrip st.current_chunk
        start_pos := st.current_start
        end_pos := st.current_start + st.current_chunk.length
        page_number := pageFor positions st.current_start
        embedding := none }]
      chunk_id := st.chunk_id + 1 }

/-- One iteration of `for sentence in sentences` (lines 241–268). -/
def stepSentence (chunk_size overlap : Nat) (positions : List (Nat × Nat))
    (st : ChunkState) (sentence : Str) : ChunkState :=
  if st.current_chunk.length + sentence.length ≤ chunk_size then
    { st with current_chunk := st.current_chunk ++ sentence ++ str " " }
  else
    let st1 := emitChunk positions st
    match st1.chunks.getLast? with
    | some last =>
        if 0 < overlap then
          { st1 with
            current_chunk := takeRight overlap last.text ++ str " " ++ sentence ++ str " "
            current_start := last.end_pos - overlap }
        else
          { st1 with
            current_chunk := sentence ++ str " "
            current_start := last.end_pos }
    | none =>
        { st1 with
          current_chunk := sentence ++ str " "
          current_start := 0 }

/-- `SmartChunker.chunk_document(text, chunk_size, overlap)`
(lines 207–285). -/
def chunk_document (text : Str) (chunk_size overlap : Nat) : List DocumentChunk :=
  if text = [] ∨ pyStrip text = [] then []
  else
    (emitChunk (pageScan text).2
      ((splitIntoSentences (pageScan text).1).foldl
        (stepSentence chunk_size overlap (pageScan text).2)
        { chunks := [], current_chunk := [], current_start := 0, chunk_id := 0 })).chunks

lemma str_space : str " " = [' '] := rfl

lemma takeRight_length_le (n : Nat) (s : Str) : (takeRight n s).length ≤ n := by
  unfold takeRight
  rw [List.length_drop]
  omega

lemma rstrip_append_space (l : Str) : rstrip (l ++ [' ']) = rstrip l := by
  unfold rstrip
  rw [List.reverse_append]
  rfl

lemma lstrip_length_le (s : Str) : (lstrip s).length ≤ s.length :=
  (List.dropWhile_sublist _).length_le

lemma rstrip_length_le (s : Str) : (rstrip s).length ≤ s.length := by
  unfold rstrip
  rw [List.length_reverse]
  calc (s.reverse.dropWhile Char.isWhitespace).length ≤ s.reverse.length :=
        (List.dropWhile_sublist _).length_le
    _ = s.length := List.length_reverse s

lemma pyStrip_append_space_length (l : Str) :
    (pyStrip (l ++ [' '])).length ≤ l.length := by
  unfold pyStrip
  rw [rstrip_append_space]
  calc (lstrip (rstrip l)).length ≤ (rstrip l).length := lstrip_length_le _
    _ ≤ l.length := rstrip_length_le _

/-- The loop invariant for the soft size ceiling: all emitted chunks obey
the bound and the running buffer, when nonempty, ends in the pending
separator space and is itself bounded. -/
def ChunkInv (chunk_size overlap : Nat) (st : ChunkState) : Prop :=
  (∀ c ∈ st.chunks, c.text.length ≤ chunk_size + overlap + 1)
  ∧ (st.current_chunk = []
     ∨ ∃ l, st.current_chunk = l ++ [' ']
        ∧ st.current_chunk.length ≤ chunk_size + overlap + 2)

lemma emitChunk_bound {chunk_size overlap : Nat} (positions : List (Nat × Nat))
    {st : ChunkState} (h : ChunkInv chunk_size overlap st) :
    ∀ c ∈ (emitChunk positions st).chunks, c.text.length ≤ chunk_size + overlap + 1 := by
  obtain ⟨hb, hcur⟩ := h
  unfold emitChunk
  split
  · exact hb
  · rename_i hne
    intro c hc
    rcases List.mem_append.mp hc with hold | hnew
    · exact hb c hold
    · have hc' := List.mem_singleton.mp hnew
      subst hc'
      rcases hcur with hnil | ⟨l, hl, hlen⟩
      · rw [hnil] at hne
        exact absurd rfl hne
      · show (pyStrip st.current_chunk).length ≤ chunk_size + overlap + 1
        rw [hl] at hlen ⊢
        have h1 := pyStrip_append_space_length l
        simp only [List.length_append, List.length_cons, List.length_nil] at hlen
        omega

lemma emitChunk_current (positions : List (Nat × Nat)) (st : ChunkState) :
    (emitChunk positions st).current_chunk = st.current_chunk := by
  unfold emitChunk
  split <;> rfl

lemma stepSentence_inv {chunk_size overlap : Nat} (positions : List (Nat × Nat))
    {st : ChunkState} {sentence : Str}
    (hs : sentence.length ≤ chunk_size)
    (h : ChunkInv chunk_size overlap st) :
    ChunkInv chunk_size overlap (stepSentence chunk_size overlap positions st sentence) := by
  obtain ⟨hb, hcur⟩ := h
  unfold stepSentence
  split
  · rename_i hfits
    refine ⟨hb, Or.inr ⟨st.current_chunk ++ sentence, ?_, ?_⟩⟩
    · simp [str_space]
    · simp only [List.length_append, str_space, List.length_cons, List.length_nil]
      omega
  · rename_i hnofit
    have hb1 := emitChunk_bound positions ⟨hb, hcur⟩
    cases hlast : (emitChunk positions st).chunks.getLast? with
    | some last =>
        have hmem : last ∈ (emitChunk positions st).chunks :=
          List.mem_of_mem_getLast? hlast
        have hlb := hb1 last hmem
        simp only [hlast]
        split
        · refine ⟨hb1, Or.inr ⟨(takeRight overlap last.text ++ [' ']) ++ sentence, ?_, ?_⟩⟩
          · simp [str_space]
          · have := takeRight_length_le overlap last.text
            simp only [List.length_append, str_space, List.length_cons, List.length_nil]
            omega
        · refine ⟨hb1, Or.inr ⟨sentence, by simp [str_space], ?_⟩⟩
          simp only [List.length_append, str_space, List.length_cons, List.length_nil]
          omega
    | none =>
        simp only [hlast]
        refine ⟨hb1, Or.inr ⟨sentence, by simp [str_space], ?_⟩⟩
        simp only [List.length_append, str_space, List.length_cons, List.length_nil]
        omega

lemma foldl_stepSentence_inv {chunk_size overlap : Nat} (positions : List (Nat × Nat)) :
    ∀ (sentences : List Str) (st : ChunkState),
      (∀ s ∈ sentences, s.length ≤ chunk_size) →
      ChunkInv chunk_size overlap st →
      ChunkInv chunk_size overlap
        (sentences.foldl (stepSentence chunk_size overlap positions) st) := by
  intro sentences
  induction sentences with
  | nil => intro st _ h; exact h
  | cons s ss ih =>
      intro st hall h
      rw [List.foldl_cons]
      exact ih _ (fun x hx => hall x (by simp [hx]))
        (stepSentence_inv positions (hall s (by simp)) h)

/-- C8 claim, theorem (amended).
If every sentence of the document fits within `chunk_size`, then every
chunk produced by `chunk_document` has text length at most
`chunk_size + overlap + 1`: one more than the claimed `chunk_size +
overlap`, because the seeded buffer `overlap_text + " " + sentence` keeps
the separating space between the overlap seed and the sentence. -/
theorem chunk_document_soft_ceiling (text : Str) (chunk_size overlap : Nat)
    (hsent : ∀ s ∈ splitIntoSentences (pageScan text).1, s.length ≤ chunk_size) :
    ∀ c ∈ chunk_document text chunk_size overlap,
      c.text.length ≤ chunk_size + overlap + 1 := by
  unfold chunk_document
  split
  · intro c hc
    simp at hc
  · have hinv : ChunkInv chunk_size overlap
        ((splitIntoSentences (pageScan text).1).foldl
          (stepSentence chunk_size overlap (pageScan text).2)
          { chunks := [], current_chunk := [], current_start := 0, chunk_id := 0 }) :=
      foldl_stepSentence_inv (pageScan text).2 _ _ hsent
        ⟨by intro c hc; simp at hc, Or.inl rfl⟩
    exact emitChunk_bound (pageScan text).2 hinv

/-- C8 claim, witness: on a concrete two-sentence document with
`chunk_size = 10`, `overlap = 5`, all sentences fit and every chunk obeys
the amended ceiling. -/
theorem chunk_document_soft_ceiling_witness :
    (∀ s ∈ splitIntoSentences (pageScan (str "ab. cd.")).1, s.length ≤ 10)
    ∧ ∀ c ∈ chunk_document (str "ab. cd.") 10 5, c.text.length ≤ 10 + 5 + 1 :=
  ⟨by decide, chunk_document_soft_ceiling (str "ab. cd.") 10 5 (by decide)⟩

/-- C8 claim, counterexample.
On `"abcd. efghijklm. nop."` with `chunk_size = 10`, `overlap = 5`, no
sentence exceeds `chunk_size` (lengths 5, 10, 4), yet the middle chunk has
16 characters — more than `chunk_size + overlap = 15` — so the claimed
ceiling (with its only exception being a sentence longer than
`chunk_size`) does not hold. -/
theorem chunk_document_ceiling_counterexample :
    ((splitIntoSentences (pageScan (str "abcd. efghijklm. nop.")).1).map List.length
      = [5, 10, 4])
    ∧ ((chunk_document (str "abcd. efghijklm. nop.") 10 5).map (fun c => c.text.length)
      = [5, 16, 10])
    ∧ 10 + 5 < 16 := by
  refine ⟨by decide, by decide, by decide⟩

-- ===========================================================================
-- 6. PROMPTS — `PromptTemplates` (source lines 299–344)
-- ===========================================================================

/-- `PromptTemplates.TRANSLATION_PROMPT.format(source_lang=…, target_lang=…,
text=…)` (lines 302–324); the fixed glossary block is kept verbatim. -/
def TRANSLATION_PROMPT (source_lang target_lang text : Str) : Str :=
  str "You are an expert translator specializing in South Asian land records and legal documents.\n\nTASK: Translate the following " ++ source_lang
  ++ str " text to " ++ target_lang
  ++ str ".\n\nIMPORTANT GUIDELINES:\n1. Preserve all numbers, dates, and measurements exactly\n2. Keep proper nouns (names, places) in original form with transliteration\n3. Use standard English equivalents for these terms:\n   - کھسرا/खसरा = Khasra (plot number)\n   - جماع بندی/जमाबंदी = Jamabandi (record of rights)\n   - پٹواری/पटवारी = Patwari (village record keeper)\n   - تحصیل/तहसील = Tehsil (administrative division)\n   - موضع/मौजा = Mauza (village)\n   - مالک/मालिक = Malik (owner)\n   - وارث/वारिस = Waris (heir)\n   - انتقال/इंतक़ाल = Intiqal (transfer of ownership)\n4. Maintain document structure and formatting\n5. If unsure about a term, keep it in original script with [?] marker\n\nTEXT TO TRANSLATE:\n"
  ++ text ++ str "\n\nTRANSLATION:"

/-- `PromptTemplates.CONTEXT_PROMPT.format(context=…, text=…)`
(lines 326–332). -/
def CONTEXT_PROMPT (context text : Str) : Str :=
  str "Continue translating this document. Previous context:\n" ++ context
  ++ str "\n\nNEW TEXT TO TRANSLATE:\n" ++ text
  ++ str "\n\nTRANSLATION (maintain consistency with previous):"

/-- `PromptTemplates.get_translation_prompt` (lines 334–344): the
continuation template is used only for a truthy (non-`None`, non-empty)
context, with the context capped at 200 characters. -/
def get_translation_prompt (text source_lang target_lang : Str)
    (context : Option Str) : Str :=
  match context with
  | some c =>
      if c = [] then TRANSLATION_PROMPT source_lang target_lang text
      else CONTEXT_PROMPT (c.take 200) text
  | none => TRANSLATION_PROMPT source_lang target_lang text

-- ===========================================================================
-- 10 (cont.) — `TranslationQuality.calculate_coverage` (lines 495–509)
-- ===========================================================================

/-- Worker for `digitRuns`: `acc` holds the digit run being read,
reversed. -/
def digitRunsGo : Str → Str → List Str
  | [], acc => if acc = [] then [] else [acc.reverse]
  | c :: cs, acc =>
      if c.isDigit then digitRunsGo cs (c :: acc)
      else if acc = [] then digitRunsGo cs []
      else acc.reverse :: digitRunsGo cs []

/-- `re.findall(r'\d+', s)`: the maximal digit runs of `s`. -/
def digitRuns (s : Str) : List Str := digitRunsGo s []

/-- `TranslationQuality.calculate_coverage(original, translated)`
(lines 495–509): the fraction of distinct numeric tokens of the original
preserved in the translation (`set` modelled by `dedup`; only the sizes of
the set and of the intersection are consumed). -/
def calculate_coverage (original translated : Str) : ℚ :=
  if original = [] then 1
  else
    let no := (digitRuns original).dedup
    let nt := (digitRuns translated).dedup
    if no = [] then 1
    else ((no.filter (fun d => nt.contains d)).length : ℚ) / no.length

-- ===========================================================================
-- 3. VECTOR STORE — `InMemoryVectorStore` (source lines 112–150)
-- ===========================================================================

/-- State of an `InMemoryVectorStore`. -/
structure InMemoryVectorStore where
  chunks : List DocumentChunk
  index_built : Bool

/-- `InMemoryVectorStore.clear()` (lines 147–150). -/
def InMemoryVectorStore.clear (_ : InMemoryVectorStore) : InMemoryVectorStore :=
  { chunks := [], index_built := false }

/-- Embed a chunk lacking an embedding (`if chunk.embedding is None`,
lines 125–127); the embedder is the pipeline's `SimpleEmbedder()` of
dimension 256. -/
noncomputable def withEmbedding (hash : Str → Nat) (c : DocumentChunk) : DocumentChunk :=
  match c.embedding with
  | none => { c with embedding := some (embed hash 256 c.text) }
  | some _ => c

/-- `InMemoryVectorStore.add_chunks(chunks)` (lines 123–129). -/
noncomputable def InMemoryVectorStore.add_chunks (hash : Str → Nat)
    (st : InMemoryVectorStore) (chunks : List DocumentChunk) : InMemoryVectorStore :=
  { chunks := st.chunks ++ chunks.map (withEmbedding hash), index_built := true }

-- ===========================================================================
-- 8. ORCHESTRATION — `RAGTranslationPipeline` (source lines 532–760)
-- ===========================================================================

/-- Mutable state owned by one `RAGTranslationPipeline` object: the vector
store, the cache, and the generator's `request_count` (its `api_key` is
configuration, passed to each run; `last_request_time` is wall-clock
pacing, not modelled). -/
structure RAGTranslationPipeline where
  vector_store : InMemoryVectorStore
  cache : TranslationCache
  request_count : Nat

/-- `RAGTranslationPipeline.__init__` (lines 538–545). -/
def RAGTranslationPipeline.init : RAGTranslationPipeline :=
  { vector_store := { chunks := [], index_built := false }
    cache := TranslationCache.init 100
    request_count := 0 }

/-- Run metadata of `translate_document` (lines 632–645).
`processing_time_ms` is wall-clock time and is not modelled; `errors` and
`quality_issues` are kept as (possibly empty) lists where Python releases
`None` for empty ones; `quality_coverage` is kept unrounded where Python
applies `round(…, 2)` for display. -/
structure RunMetadata where
  total_chunks : Nat
  successful_chunks : Nat
  failed_chunks : Nat
  cached_chunks : Nat
  errors : List (Nat × Str)
  original_length : Nat
  translated_length : Nat
  quality_coverage : ℚ
  quality_issues : List Str
  cache_stats : CacheStats
  api_requests : Nat
deriving DecidableEq

/-- The two shapes of the metadata dict `translate_document` returns: the
zero-chunk early return `{"error": …, "chunks": 0}` or the full record. -/
inductive PyMeta where
  | noText (error : Str) (chunks : Nat)
  | meta (m : RunMetadata)
deriving DecidableEq

/-- `PyMeta` projection used to state run-level facts. -/
def PyMeta.failedCount : PyMeta → Option Nat
  | .noText _ _ => none
  | .meta m => some m.failed_chunks

/-- `PyMeta` projection: number of recorded per-chunk errors. -/
def PyMeta.errorCount : PyMeta → Option Nat
  | .noText _ _ => none
  | .meta m => some m.errors.length

/-- State threaded through the per-chunk loop of `translate_document`
(lines 581–622): the cache, the generator counters (`gen_calls` counts
the generator invocations of this run and indexes the transport oracle),
and the loop-local accumulators. -/
structure LoopState where
  cache : TranslationCache
  request_count : Nat
  gen_calls : Nat
  translated_chunks : List Str
  errors : List (Nat × Str)
  cached_count : Nat
  previous_translation : Str

/-- One iteration of `for i, chunk in enumerate(chunks)` in blocking mode
(lines 587–622): cache probe, context-aware prompt, generation, and the
error fallback appending `"[Translation failed: …]"`.  `transports i`
gives the HTTP behaviour observed by the `i`-th generator invocation of
this run. -/
def translateChunkStep (hkey : Str → Str) (apiKey : Option Str)
    (transports : Nat → Str → Nat → HttpResp) (source_lang target_lang : Str)
    (ls : LoopState) (ie : Nat × DocumentChunk) : LoopState :=
  match TranslationCache.get hkey ls.cache ie.2.text with
  | (some cached, cache') =>
      { ls with
        cache := cache'
        translated_chunks := ls.translated_chunks ++ [cached]
        cached_count := ls.cached_count + 1
        previous_translation := takeRight 200 cached }
  | (none, cache') =>
      let prompt := get_translation_prompt ie.2.text source_lang target_lang
        (if 0 < ie.1 then some ls.previous_translation else none)
      let g := GeminiGenerator.generate apiKey (transports ls.gen_calls prompt)
      match g.error with
      | some err =>
          { ls with
            cache := cache'
            gen_calls := ls.gen_calls + 1
            request_count := ls.request_count + g.succ
            translated_chunks := ls.translated_chunks ++ [failurePlaceholder ie.2.text]
            errors := ls.errors ++ [(ie.2.id, err)] }
      | none =>
          { ls with
            cache := TranslationCache.set hkey cache' ie.2.text (g.text.getD [])
            gen_calls := ls.gen_calls + 1
            request_count := ls.request_count + g.succ
            translated_chunks := ls.translated_chunks ++ [g.text.getD []]
            previous_translation := takeRight 200 (g.text.getD []) }

/-- The whole per-chunk loop of blocking mode. -/
def runChunksLoop (hkey : Str → Str) (apiKey : Option Str)
    (transports : Nat → Str → Nat → HttpResp) (source_lang target_lang : Str)
    (chunks : List DocumentChunk) (ls : LoopState) : LoopState :=
  chunks.enum.foldl (translateChunkStep hkey apiKey transports source_lang target_lang) ls

/-- `RAGTranslationPipeline.translate_document(text, source_lang,
target_lang)` (lines 547–652).  The progress callback is observational
only and the inter-chunk sleeps are pure delays, so neither is modelled;
`hkey`/`hash` are the opaque digest functions, `apiKey` the generator
credential, `transports` the per-invocation HTTP behaviour.  Returns the
final text, the metadata, and the updated pipeline state. -/
noncomputable def translate_document (hkey : Str → Str) (hash : Str → Nat)
    (apiKey : Option Str) (transports : Nat → Str → Nat → HttpResp)
    (p : RAGTranslationPipeline) (text source_lang target_lang : Str) :
    Str × PyMeta × RAGTranslationPipeline :=
  let chunks := chunk_document text CHUNK_SIZE OVERLAP_SIZE
  if chunks.length = 0 then
    ([], PyMeta.noText (str "No text to translate") 0, p)
  else
    let store := InMemoryVectorStore.add_chunks hash (p.vector_store.clear) chunks
    let ls := runChunksLoop hkey apiKey transports source_lang target_lang chunks
      { cache := p.cache, request_count := p.request_count, gen_calls := 0,
        translated_chunks := [], errors := [], cached_count := 0,
        previous_translation := [] }
    let final_text := combineChunks ls.translated_chunks
    (final_text,
     PyMeta.meta {
       total_chunks := chunks.length
       successful_chunks := chunks.length - ls.errors.length
       failed_chunks := ls.errors.length
       cached_chunks := ls.cached_count
       errors := ls.errors
       original_length := text.length
       translated_length := final_text.length
       quality_coverage := calculate_coverage text final_text
       quality_issues := detect_issues final_text
       cache_stats := ls.cache.get_stats
       api_requests := ls.request_count },
     { vector_store := store, cache := ls.cache, request_count := ls.request_count })

-- Streaming mode --

/-- The tagged progress events of `translate_streaming` (lines 654–737).
The `complete` event's `processing_time_ms` is wall-clock time and is not
modelled. -/
inductive StreamEvent where
  | error (message : Str)
  | start (total_chunks total_characters : Nat)
  | progress (current total percentage : Nat) (status : Str)
  | chunk_complete (chunk_id : Nat) (cached : Bool) (preview : Str)
  | chunk_error (chunk_id : Nat) (error : Str)
  | complete (translated_text : Str) (cache_stats : CacheStats)
deriving DecidableEq

/-- The `[:100] + "..."` preview truncation (lines 698 and 725). -/
def preview100 (t : Str) : Str :=
  if 100 < t.length then t.take 100 ++ str "..." else t

/-- State threaded through the streaming per-chunk loop. -/
structure StreamState where
  cache : TranslationCache
  request_count : Nat
  gen_calls : Nat
  translated_parts : List Str
  previous_translation : Str
  events : List StreamEvent

/-- One iteration of the streaming loop (lines 681–728): note that on a
generation error the ORIGINAL chunk text is appended to the output parts
(line 711), not the blocking mode's failure placeholder. -/
def streamChunkStep (hkey : Str → Str) (apiKey : Option Str)
    (transports : Nat → Str → Nat → HttpResp) (source_lang target_lang : Str)
    (total : Nat) (ss : StreamState) (ie : Nat × DocumentChunk) : StreamState :=
  let ss0 := { ss with events := ss.events ++ [StreamEvent.progress (ie.1 + 1) total
      ((ie.1 + 1) * 100 / total)
      (str "Translating chunk " ++ Nat.toDigits 10 (ie.1 + 1) ++ str " of "
        ++ Nat.toDigits 10 total)] }
  match TranslationCache.get hkey ss0.cache ie.2.text with
  | (some cached, cache') =>
      { ss0 with
        cache := cache'
        translated_parts := ss0.translated_parts ++ [cached]
        events := ss0.events ++ [StreamEvent.chunk_complete ie.2.id true (preview100 cached)]
        previous_translation := takeRight 200 cached }
  | (none, cache') =>
      let prompt := get_translation_prompt ie.2.text source_lang target_lang
        (if 0 < ie.1 then some ss0.previous_translation else none)
      let g := GeminiGenerator.generate apiKey (transports ss0.gen_calls prompt)
      match g.error with
      | some err =>
          { ss0 with
            cache := cache'
            gen_calls := ss0.gen_calls + 1
            request_count := ss0.request_count + g.succ
            translated_parts := ss0.translated_parts ++ [ie.2.text]
            events := ss0.events ++ [StreamEvent.chunk_error ie.2.id err] }
      | none =>
          { ss0 with
            cache := TranslationCache.set hkey cache' ie.2.text (g.text.getD [])
            gen_calls := ss0.gen_calls + 1
            request_count := ss0.request_count + g.succ
            translated_parts := ss0.translated_parts ++ [g.text.getD []]
            events := ss0.events ++
              [StreamEvent.chunk_complete ie.2.id false (preview100 (g.text.getD []))]
            previous_translation := takeRight 200 (g.text.getD []) }

/-- `RAGTranslationPipeline.translate_streaming(text, source_lang,
target_lang)` (lines 654–737), with the (finite) event sequence fully
materialised.  Returns the events and the updated pipeline state. -/
noncomputable def translate_streaming (hkey : Str → Str) (hash : Str → Nat)
    (apiKey : Option Str) (transports : Nat → Str → Nat → HttpResp)
    (p : RAGTranslationPipeline) (text source_lang target_lang : Str) :
    List StreamEvent × RAGTranslationPipeline :=
  let chunks := chunk_document text CHUNK_SIZE OVERLAP_SIZE
  if chunks.length = 0 then
    ([StreamEvent.error (str "No text to translate")], p)
  else
    let store := InMemoryVectorStore.add_chunks hash (p.vector_store.clear) chunks
    let ss := chunks.enum.foldl
      (streamChunkStep hkey apiKey transports source_lang target_lang chunks.length)
      { cache := p.cache, request_count := p.request_count, gen_calls := 0,
        translated_parts := [], previous_translation := [],
        events := [StreamEvent.start chunks.length text.length] }
    let final_text := combineChunks ss.translated_parts
    (ss.events ++ [StreamEvent.complete final_text ss.cache.get_stats],
     { vector_store := store, cache := ss.cache, request_count := ss.request_count })

-- Public API (lines 766–792) --

/-- `get_rag_translator()` over the module-level `_pipeline` singleton
(lines 766–773): the process state is the optional stored pipeline; the
same object is returned on every later call. -/
def get_rag_translator : Option RAGTranslationPipeline →
    RAGTranslationPipeline × Option RAGTranslationPipeline
  | none => (RAGTranslationPipeline.init, some RAGTranslationPipeline.init)
  | some p => (p, some p)

/-- `translate_with_rag(text, …)` (lines 776–792); the in-place mutation
of the singleton by the run is modelled by storing the updated pipeline
back into the process state. -/
noncomputable def translate_with_rag (hkey : Str → Str) (hash : Str → Nat)
    (apiKey : Option Str) (transports : Nat → Str → Nat → HttpResp)
    (st : Option RAGTranslationPipeline) (text source_lang target_lang : Str) :
    (Str × PyMeta) × Option RAGTranslationPipeline :=
  let pr := get_rag_translator st
  let r := translate_document hkey hash apiKey transports pr.1 text source_lang target_lang
  ((r.1, r.2.1), some r.2.2)

-- ===========================================================================
-- Claims about the orchestrator (C1, C2, C9)
-- ===========================================================================

/-- With a falsy (absent/empty) API key and a cache holding no entries,
every chunk of the loop fails with the configuration error: the cache
stays entry-free (failures are never cached), every chunk contributes a
recorded error and a failure placeholder, and nothing is served from
cache. -/
lemma loop_all_fail (hkey : Str → Str) (apiKey : Option Str)
    (transports : Nat → Str → Nat → HttpResp) (sl tl : Str)
    (hfalsy : pyFalsyStr apiKey = true) :
    ∀ (ie : List (Nat × DocumentChunk)) (ls : LoopState), ls.cache.cache = [] →
      (ie.foldl (translateChunkStep hkey apiKey transports sl tl) ls).cache.cache = []
      ∧ (ie.foldl (translateChunkStep hkey apiKey transports sl tl) ls).errors
          = ls.errors ++ ie.map (fun q => (q.2.id, str "API key not configured"))
      ∧ (ie.foldl (translateChunkStep hkey apiKey transports sl tl) ls).translated_chunks
          = ls.translated_chunks ++ ie.map (fun q => failurePlaceholder q.2.text)
      ∧ (ie.foldl (translateChunkStep hkey apiKey transports sl tl) ls).cached_count
          = ls.cached_count := by
  intro ie
  induction ie with
  | nil => intro ls h; exact ⟨h, by simp, by simp, rfl⟩
  | cons q qs ih =>
      intro ls h
      have hmiss : odFind ls.cache.cache (hkey q.2.text) = none := by
        rw [h]; rfl
      have hgen : ∀ tr, GeminiGenerator.generate apiKey tr
          = ⟨none, some (str "API key not configured"), 0, 0⟩ := by
        intro tr
        unfold GeminiGenerator.generate
        rw [hfalsy]
        rfl
      have hstep : translateChunkStep hkey apiKey transports sl tl ls q
          = { ls with
              cache := { ls.cache with misses := ls.cache.misses + 1 }
              gen_calls := ls.gen_calls + 1
              translated_chunks := ls.translated_chunks ++ [failurePlaceholder q.2.text]
              errors := ls.errors ++ [(q.2.id, str "API key not configured")] } := by
        unfold translateChunkStep TranslationCache.get
        rw [hmiss]
        simp only [hgen]
        simp
      rw [List.foldl_cons, hstep]
      obtain ⟨h1, h2, h3, h4⟩ := ih
        { ls with
          cache := { ls.cache with misses := ls.cache.misses + 1 }
          gen_calls := ls.gen_calls + 1
          translated_chunks := ls.translated_chunks ++ [failurePlaceholder q.2.text]
          errors := ls.errors ++ [(q.2.id, str "API key not configured")] }
        (by exact h)
      refine ⟨h1, ?_, ?_, by rw [h4]⟩
      · rw [h2]; simp
      · rw [h3]; simp

/-- With a falsy API key, an entry-free cache and a nonempty document,
`translate_document` records one configuration failure per chunk. -/
lemma translate_document_all_chunks_fail (hkey : Str → Str) (hash : Str → Nat)
    (apiKey : Option Str) (transports : Nat → Str → Nat → HttpResp)
    (p : RAGTranslationPipeline) (text sl tl : Str)
    (hfalsy : pyFalsyStr apiKey = true)
    (hcache : p.cache.cache = [])
    (hne : (chunk_document text CHUNK_SIZE OVERLAP_SIZE).length ≠ 0) :
    (translate_document hkey hash apiKey transports p text sl tl).2.1.failedCount
      = some (chunk_document text CHUNK_SIZE OVERLAP_SIZE).length
    ∧ (translate_document hkey hash apiKey transports p text sl tl).2.1.errorCount
      = some (chunk_document text CHUNK_SIZE OVERLAP_SIZE).length := by
  have hloop := loop_all_fail hkey apiKey transports sl tl hfalsy
    (chunk_document text CHUNK_SIZE OVERLAP_SIZE).enum
    { cache := p.cache, request_count := p.request_count, gen_calls := 0,
      translated_chunks := [], errors := [], cached_count := 0,
      previous_translation := [] }
    hcache
  unfold translate_document
  rw [if_neg hne]
  unfold runChunksLoop
  constructor
  · show some _ = _
    rw [hloop.2.1]
    simp [List.enum_length]
  · show some _ = _
    rw [hloop.2.1]
    simp [List.enum_length]

/-- C2 claim, theorem (amended).
A missing (or empty) generation credential is surfaced immediately by
`generate` with no retry and zero transport attempts — but it is NOT
fatal for the whole run: `translate_document` on a nonempty document
continues its per-chunk loop, recording one `"API key not configured"`
failure for every chunk (each replaced by the failure placeholder), rather
than stopping at once. -/
theorem translate_document_missing_key (hkey : Str → Str) (hash : Str → Nat)
    (apiKey : Option Str) (transports : Nat → Str → Nat → HttpResp)
    (transport0 : Nat → HttpResp)
    (p : RAGTranslationPipeline) (text sl tl : Str)
    (hfalsy : pyFalsyStr apiKey = true)
    (hcache : p.cache.cache = [])
    (hne : (chunk_document text CHUNK_SIZE OVERLAP_SIZE).length ≠ 0) :
    GeminiGenerator.generate apiKey transport0
      = ⟨none, some (str "API key not configured"), 0, 0⟩
    ∧ (translate_document hkey hash apiKey transports p text sl tl).2.1.failedCount
      = some (chunk_document text CHUNK_SIZE OVERLAP_SIZE).length
    ∧ (translate_document hkey hash apiKey transports p text sl tl).2.1.errorCount
      = some (chunk_document text CHUNK_SIZE OVERLAP_SIZE).length := by
  refine ⟨?_, ?_, ?_⟩
  · unfold GeminiGenerator.generate
    rw [hfalsy]
    rfl
  · exact (translate_document_all_chunks_fail hkey hash apiKey transports p text sl tl
      hfalsy hcache hne).1
  · exact (translate_document_all_chunks_fail hkey hash apiKey transports p text sl tl
      hfalsy hcache hne).2

set_option maxRecDepth 40000 in
/-- C2 claim, witness: on the one-chunk document `"hi."` with no API key
configured, the failure is immediate (0 transport attempts) yet the run
still processes its chunk and records one failure. -/
theorem translate_document_missing_key_witness :
    (pyFalsyStr none = true
      ∧ RAGTranslationPipeline.init.cache.cache = []
      ∧ (chunk_document (str "hi.") CHUNK_SIZE OVERLAP_SIZE).length ≠ 0)
    ∧ (GeminiGenerator.generate none (fun _ => HttpResp.timeout)
        = ⟨none, some (str "API key not configured"), 0, 0⟩
      ∧ (translate_document (fun s => s) (fun _ => 0) none (fun _ _ _ => HttpResp.timeout)
          RAGTranslationPipeline.init (str "hi.") (str "Urdu") (str "English")).2.1.failedCount
        = some (chunk_document (str "hi.") CHUNK_SIZE OVERLAP_SIZE).length
      ∧ (translate_document (fun s => s) (fun _ => 0) none (fun _ _ _ => HttpResp.timeout)
          RAGTranslationPipeline.init (str "hi.") (str "Urdu") (str "English")).2.1.errorCount
        = some (chunk_document (str "hi.") CHUNK_SIZE OVERLAP_SIZE).length) :=
  ⟨⟨by decide, by decide, by decide⟩,
   translate_document_missing_key (fun s => s) (fun _ => 0) none
     (fun _ _ _ => HttpResp.timeout) (fun _ => HttpResp.timeout)
     RAGTranslationPipeline.init (str "hi.") (str "Urdu") (str "English")
     (by decide) (by decide) (by decide)⟩

-- Symbolic evaluation of the chunker on a concrete 2203-character document
-- (the per-character recursion is too deep for kernel evaluation, so the
-- run is evaluated by the lemmas below instead of by `decide`).

/-- A concrete two-sentence document long enough to produce two chunks at
the default `chunk_size = 1200`. -/
def longText : Str :=
  List.replicate 1100 'a' ++ ('.' :: ' ' :: (List.replicate 1100 'b' ++ ['.']))

lemma parseMarker_none {c : Char} (cs : Str) (hc : c ≠ '-') :
    parseMarker (c :: cs) = none := by
  unfold parseMarker stripPrefixStr
  rw [if_neg]
  intro h
  have hcons : str "--- Page " = '-' :: str "-- Page " := rfl
  rw [hcons] at h
  exact hc ((List.cons_prefix_cons.mp h).1.symm)

lemma pageScanGo_no_dash :
    ∀ (fuel : Nat) (s acc : Str) (positions : List (Nat × Nat)),
      (∀ c ∈ s, c ≠ '-') →
      pageScanGo fuel s acc positions = (acc ++ s, positions) := by
  intro fuel
  induction fuel with
  | zero => intro s acc positions _; rfl
  | succ fuel ih =>
      intro s acc positions h
      cases s with
      | nil => simp [pageScanGo]
      | cons c cs =>
          unfold pageScanGo
          rw [parseMarker_none cs (h c (by simp))]
          rw [ih cs (acc ++ [c]) positions (fun d hd => h d (by simp [hd]))]
          simp

/-- A text containing no `'-'` has no page markers: the scan returns it
unchanged with the single initial position entry. -/
lemma pageScan_no_dash (text : Str) (h : ∀ c ∈ text, c ≠ '-') :
    pageScan text = (text, [(0, 1)]) := by
  unfold pageScan
  rw [pageScanGo_no_dash text.length text [] [(0, 1)] h]
  simp

lemma longText_no_dash : ∀ c ∈ longText, c ≠ '-' := by
  intro c hc
  unfold longText at hc
  simp only [List.mem_append, List.mem_cons, List.mem_replicate, List.not_mem_nil,
    or_false] at hc
  rcases hc with ⟨_, rfl⟩ | rfl | rfl | ⟨_, rfl⟩ | rfl <;> decide

/-- Skipping a run of identical non-whitespace characters in the sentence
splitter just transfers the run into the accumulator. -/
lemma splitGo_replicate (c : Char) (hws : c.isWhitespace = false) :
    ∀ (n : Nat) (prev : Option Char) (acc rest : Str),
      splitSentencesGo prev false (List.replicate n c ++ rest) acc
        = if n = 0 then splitSentencesGo prev false rest acc
          else splitSentencesGo (some c) false rest (List.replicate n c ++ acc) := by
  intro n
  induction n with
  | zero => intro prev acc rest; simp
  | succ n ih =>
      intro prev acc rest
      rw [if_neg (Nat.succ_ne_zero n)]
      rw [List.replicate_succ, List.cons_append]
      show (if (isEnder prev && c.isWhitespace) = true then _ else _) = _
      rw [if_neg (by simp [hws])]
      rw [ih (some c) (c :: acc) rest]
      by_cases hn : n = 0
      · subst hn; simp
      · rw [if_neg hn]
        congr 1
        rw [List.append_cons, ← List.replicate_succ' , List.replicate_succ]

-- One-step equations for `splitSentencesGo`, keeping the tail symbolic so
-- no deep structural-recursion reduction is ever triggered.

lemma splitGo_nil (prev : Option Char) (b : Bool) (acc : Str) :
    splitSentencesGo prev b [] acc = [acc.reverse] := by
  cases b <;> rw [splitSentencesGo]

lemma splitGo_keep (prev : Option Char) (c : Char) (cs acc : Str)
    (h : (isEnder prev && c.isWhitespace) = false) :
    splitSentencesGo prev false (c :: cs) acc
      = splitSentencesGo (some c) false cs (c :: acc) := by
  rw [splitSentencesGo, h]
  simp

lemma splitGo_cut (prev : Option Char) (c : Char) (cs acc : Str)
    (h : (isEnder prev && c.isWhitespace) = true) :
    splitSentencesGo prev false (c :: cs) acc
      = acc.reverse :: splitSentencesGo (some c) true cs [] := by
  rw [splitSentencesGo, h]
  simp

lemma splitGo_run_exit (prev : Option Char) (c : Char) (cs acc : Str)
    (h : c.isWhitespace = false) :
    splitSentencesGo prev true (c :: cs) acc
      = splitSentencesGo (some c) false cs (c :: acc) := by
  rw [splitSentencesGo, h]
  simp

lemma splitSentencesGo_longText :
    splitSentencesGo none false longText []
      = [List.replicate 1100 'a' ++ ['.'], List.replicate 1100 'b' ++ ['.']] := by
  unfold longText
  rw [splitGo_replicate 'a' (by decide) 1100 none []]
  rw [if_neg (by norm_num)]
  rw [splitGo_keep (some 'a') '.' _ _ (by decide)]
  rw [splitGo_cut (some '.') ' ' _ _ (by decide)]
  rw [show List.replicate 1100 'b' ++ ['.'] = 'b' :: (List.replicate 1099 'b' ++ ['.'])
    from by rw [← List.cons_append, ← List.replicate_succ]]
  rw [splitGo_run_exit (some ' ') 'b' _ _ (by decide)]
  rw [splitGo_replicate 'b' (by decide) 1099 (some 'b') ['b']]
  rw [if_neg (by norm_num)]
  rw [splitGo_keep (some 'b') '.' _ _ (by decide)]
  rw [splitGo_nil]
  simp only [List.append_nil, List.reverse_cons, List.reverse_append,
    List.reverse_replicate, List.reverse_nil, List.nil_append, List.singleton_append,
    List.append_assoc, List.cons_append]

lemma lstrip_cons_nonws {c : Char} (hc : c.isWhitespace = false) (l : Str) :
    lstrip (c :: l) = c :: l := by
  unfold lstrip
  rw [List.dropWhile_cons, if_neg (by simp [hc])]

lemma rstrip_concat_nonws {d : Char} (hd : d.isWhitespace = false) (l : Str) :
    rstrip (l ++ [d]) = l ++ [d] := by
  unfold rstrip
  rw [List.reverse_append]
  show ((d :: l.reverse).dropWhile Char.isWhitespace).reverse = l ++ [d]
  rw [List.dropWhile_cons, if_neg (by simp [hd])]
  simp

lemma pyStrip_sentence (c d : Char) (hc : c.isWhitespace = false)
    (hd : d.isWhitespace = false) (n : Nat) :
    pyStrip (List.replicate (n + 1) c ++ [d]) = List.replicate (n + 1) c ++ [d] := by
  unfold pyStrip
  rw [rstrip_concat_nonws hd]
  rw [List.replicate_succ, List.cons_append]
  exact lstrip_cons_nonws hc _

lemma not_isEmpty_of_mem {l : Str} {c : Char} (h : c ∈ l) : (!l.isEmpty) = true := by
  cases l with
  | nil => cases h
  | cons a t => rfl

lemma splitIntoSentences_longText :
    splitIntoSentences longText
      = [List.replicate 1100 'a' ++ ['.'], List.replicate 1100 'b' ++ ['.']] := by
  unfold splitIntoSentences
  rw [splitSentencesGo_longText]
  rw [show (1100 : Nat) = 1099 + 1 from rfl]
  simp only [List.map_cons, List.map_nil, pyStrip_sentence 'a' '.' (by decide) (by decide),
    pyStrip_sentence 'b' '.' (by decide) (by decide)]
  rw [List.filter_cons, List.filter_cons, List.filter_nil]
  rw [if_pos (not_isEmpty_of_mem (List.mem_append.mpr (Or.inr (List.mem_singleton.mpr rfl)))),
    if_pos (not_isEmpty_of_mem (List.mem_append.mpr (Or.inr (List.mem_singleton.mpr rfl))))]

lemma mem_dropWhile_of_not (p : Char → Bool) :
    ∀ {x : Str} {c : Char}, c ∈ x → p c = false → c ∈ x.dropWhile p := by
  intro x
  induction x with
  | nil => intro c hc _; simp at hc
  | cons a t ih =>
      intro c hc hp
      rw [List.dropWhile_cons]
      by_cases ha : p a = true
      · rw [if_pos ha]
        rcases List.mem_cons.mp hc with rfl | hct
        · rw [ha] at hp; cases hp
        · exact ih hct hp
      · rw [if_neg ha]
        exact hc

/-- A string containing a non-whitespace character does not strip to
empty. -/
lemma pyStrip_ne_nil {l : Str} {c : Char} (hc : c ∈ l)
    (hw : c.isWhitespace = false) : pyStrip l ≠ [] := by
  have h1 : c ∈ rstrip l := by
    unfold rstrip
    rw [List.mem_reverse]
    exact mem_dropWhile_of_not _ (List.mem_reverse.mpr hc) hw
  have h2 : c ∈ pyStrip l := by
    unfold pyStrip lstrip
    exact mem_dropWhile_of_not _ h1 hw
  exact List.ne_nil_of_mem h2

lemma emitChunk_chunks_length {positions : List (Nat × Nat)} {st : ChunkState}
    (h : pyStrip st.current_chunk ≠ []) :
    (emitChunk positions st).chunks.length = st.chunks.length + 1 := by
  unfold emitChunk
  rw [if_neg h]
  simp

lemma stepSentence_fits (chunk_size overlap : Nat) (positions : List (Nat × Nat))
    (st : ChunkState) (s : Str)
    (h : st.current_chunk.length + s.length ≤ chunk_size) :
    (stepSentence chunk_size overlap positions st s).chunks = st.chunks
    ∧ (stepSentence chunk_size overlap positions st s).current_chunk
        = st.current_chunk ++ s ++ str " " := by
  unfold stepSentence
  rw [if_pos h]
  exact ⟨rfl, rfl⟩

lemma stepSentence_overflows (chunk_size overlap : Nat) (positions : List (Nat × Nat))
    (st : ChunkState) (s : Str)
    (h : ¬ (st.current_chunk.length + s.length ≤ chunk_size)) :
    (stepSentence chunk_size overlap positions st s).chunks
      = (emitChunk positions st).chunks
    ∧ ∃ l r, (stepSentence chunk_size overlap positions st s).current_chunk
        = l ++ (s ++ r) := by
  unfold stepSentence
  rw [if_neg h]
  cases hgl : (emitChunk positions st).chunks.getLast? with
  | none =>
      simp only [hgl]
      exact ⟨trivial, [], str " ", rfl⟩
  | some last =>
      by_cases hov : 0 < overlap
      · simp only [hgl, if_pos hov]
        exact ⟨trivial, takeRight overlap last.text ++ str " ", str " ",
          List.append_assoc _ _ _⟩
      · simp only [hgl, if_neg hov]
        exact ⟨trivial, [], str " ", rfl⟩

lemma chunk_document_longText_length :
    (chunk_document longText CHUNK_SIZE OVERLAP_SIZE).length = 2 := by
  have hmemA : ('a' : Char) ∈ longText := by
    unfold longText
    exact List.mem_append.mpr (Or.inl (List.mem_replicate.mpr ⟨by norm_num, rfl⟩))
  have hcond : ¬ (longText = [] ∨ pyStrip longText = []) := by
    rintro (h | h)
    · exact List.ne_nil_of_mem hmemA h
    · exact pyStrip_ne_nil hmemA (by decide) h
  unfold chunk_document
  rw [if_neg hcond, pageScan_no_dash _ longText_no_dash]
  show (emitChunk [(0, 1)]
    ((splitIntoSentences longText).foldl (stepSentence CHUNK_SIZE OVERLAP_SIZE [(0, 1)])
      { chunks := [], current_chunk := [], current_start := 0, chunk_id := 0 })).chunks.length = 2
  rw [splitIntoSentences_longText, List.foldl_cons, List.foldl_cons, List.foldl_nil]
  have h1 : ({ chunks := [], current_chunk := [], current_start := 0, chunk_id := 0 } : ChunkState).current_chunk.length
      + (List.replicate 1100 'a' ++ ['.']).length ≤ CHUNK_SIZE := by
    rw [List.length_append, List.length_replicate]
    decide
  obtain ⟨hc1, hcur1⟩ := stepSentence_fits CHUNK_SIZE OVERLAP_SIZE [(0, 1)] _ _ h1
  have h2 : ¬ ((stepSentence CHUNK_SIZE OVERLAP_SIZE [(0, 1)]
      { chunks := [], current_chunk := [], current_start := 0, chunk_id := 0 }
      (List.replicate 1100 'a' ++ ['.'])).current_chunk.length
      + (List.replicate 1100 'b' ++ ['.']).length ≤ CHUNK_SIZE) := by
    rw [hcur1]
    simp only [List.length_append, List.length_replicate]
    decide
  obtain ⟨hc2, l2, r2, hcur2⟩ := stepSentence_overflows CHUNK_SIZE OVERLAP_SIZE [(0, 1)] _ _ h2
  have hemit1len : (emitChunk [(0, 1)] (stepSentence CHUNK_SIZE OVERLAP_SIZE [(0, 1)]
      { chunks := [], current_chunk := [], current_start := 0, chunk_id := 0 }
      (List.replicate 1100 'a' ++ ['.']))).chunks.length = 1 := by
    rw [emitChunk_chunks_length, hc1]
    · rfl
    · rw [hcur1]
      refine pyStrip_ne_nil (c := 'a') ?_ (by decide)
      simp only [List.nil_append, List.mem_append]
      exact Or.inl (Or.inl (List.mem_replicate.mpr ⟨by norm_num, rfl⟩))
  rw [emitChunk_chunks_length, hc2, hemit1len]
  rw [hcur2]
  refine pyStrip_ne_nil (c := 'b') ?_ (by decide)
  simp only [List.mem_append]
  exact Or.inr (Or.inl (Or.inl (List.mem_replicate.mpr ⟨by norm_num, rfl⟩)))

/-- C2 claim, counterexample.
A concrete 2203-character document chunks into 2 chunks; calling
`translate_document` on it with no API key does NOT stop at once: both
chunks are processed and each records its own configuration failure. -/
theorem translate_document_missing_key_counterexample :
    (chunk_document longText CHUNK_SIZE OVERLAP_SIZE).length = 2
    ∧ (translate_document (fun s => s) (fun _ => 0) none (fun _ _ _ => HttpResp.timeout)
        RAGTranslationPipeline.init longText (str "Urdu") (str "English")).2.1.failedCount
      = some 2
    ∧ (translate_document (fun s => s) (fun _ => 0) none (fun _ _ _ => HttpResp.timeout)
        RAGTranslationPipeline.init longText (str "Urdu") (str "English")).2.1.errorCount
      = some 2 := by
  have hlen := chunk_document_longText_length
  have hall := translate_document_all_chunks_fail (fun s => s) (fun _ => 0) none
    (fun _ _ _ => HttpResp.timeout) RAGTranslationPipeline.init longText
    (str "Urdu") (str "English") (by decide) (by decide) (by rw [hlen]; norm_num)
  exact ⟨hlen, by rw [hall.1, hlen], by rw [hall.2, hlen]⟩

lemma translateChunkStep_output_length (hkey : Str → Str) (apiKey : Option Str)
    (transports : Nat → Str → Nat → HttpResp) (sl tl : Str)
    (ls : LoopState) (ie : Nat × DocumentChunk) :
    (translateChunkStep hkey apiKey transports sl tl ls ie).translated_chunks.length
      = ls.translated_chunks.length + 1 := by
  unfold translateChunkStep
  cases hget : TranslationCache.get hkey ls.cache ie.2.text with
  | mk o c' =>
      cases o with
      | some cached => simp
      | none =>
          cases herr : (GeminiGenerator.generate apiKey (transports ls.gen_calls
              (get_translation_prompt ie.2.text sl tl
                (if 0 < ie.1 then some ls.previous_translation else none)))).error with
          | some e => simp [herr]
          | none => simp [herr]

lemma streamChunkStep_output_length (hkey : Str → Str) (apiKey : Option Str)
    (transports : Nat → Str → Nat → HttpResp) (sl tl : Str) (total : Nat)
    (ss : StreamState) (ie : Nat × DocumentChunk) :
    (streamChunkStep hkey apiKey transports sl tl total ss ie).translated_parts.length
      = ss.translated_parts.length + 1 := by
  unfold streamChunkStep
  cases hget : TranslationCache.get hkey ss.cache ie.2.text with
  | mk o c' =>
      cases o with
      | some cached => simp [hget]
      | none =>
          cases herr : (GeminiGenerator.generate apiKey (transports ss.gen_calls
              (get_translation_prompt ie.2.text sl tl
                (if 0 < ie.1 then some ss.previous_translation else none)))).error with
          | some e => simp [hget, herr]
          | none => simp [hget, herr]

lemma runChunks_no_abort (hkey : Str → Str) (apiKey : Option Str)
    (transports : Nat → Str → Nat → HttpResp) (sl tl : Str) :
    ∀ (ps : List (Nat × DocumentChunk)) (ls : LoopState),
      (ps.foldl (translateChunkStep hkey apiKey transports sl tl) ls).translated_chunks.length
        = ls.translated_chunks.length + ps.length := by
  intro ps
  induction ps with
  | nil => intro ls; simp
  | cons q qs ih =>
      intro ls
      rw [List.foldl_cons, ih, translateChunkStep_output_length]
      simp only [List.length_cons]
      omega

lemma streamChunks_no_abort (hkey : Str → Str) (apiKey : Option Str)
    (transports : Nat → Str → Nat → HttpResp) (sl tl : Str) (total : Nat) :
    ∀ (ps : List (Nat × DocumentChunk)) (ss : StreamState),
      (ps.foldl (streamChunkStep hkey apiKey transports sl tl total) ss).translated_parts.length
        = ss.translated_parts.length + ps.length := by
  intro ps
  induction ps with
  | nil => intro ss; simp
  | cons q qs ih =>
      intro ss
      rw [List.foldl_cons, ih, streamChunkStep_output_length]
      simp only [List.length_cons]
      omega

/-- C1 claim, theorem (amended).
A per-chunk generation failure never aborts the run: in both modes every
chunk contributes exactly one entry to the assembled sequence (the loops
structurally process all chunks), and a failed, uncached chunk has its
error recorded — in the blocking loop's error list (which becomes the run
metadata) and as a `chunk_error` event in streaming mode.  The failed
chunk's output is the placeholder
`"[Translation failed: <first 100 chars>...]"` ONLY in blocking mode; the
streaming loop appends the chunk's ORIGINAL text instead. -/
theorem per_chunk_failure_never_aborts
    (hkey : Str → Str) (apiKey : Option Str) (transports : Nat → Str → Nat → HttpResp)
    (sl tl : Str) (total : Nat) (ls : LoopState) (ss : StreamState)
    (ie ie' : Nat × DocumentChunk) (err err' : Str)
    (hmiss : odFind ls.cache.cache (hkey ie.2.text) = none)
    (herr : (GeminiGenerator.generate apiKey (transports ls.gen_calls
        (get_translation_prompt ie.2.text sl tl
          (if 0 < ie.1 then some ls.previous_translation else none)))).error = some err)
    (hmiss' : odFind ss.cache.cache (hkey ie'.2.text) = none)
    (herr' : (GeminiGenerator.generate apiKey (transports ss.gen_calls
        (get_translation_prompt ie'.2.text sl tl
          (if 0 < ie'.1 then some ss.previous_translation else none)))).error = some err') :
    ((translateChunkStep hkey apiKey transports sl tl ls ie).translated_chunks
        = ls.translated_chunks ++ [failurePlaceholder ie.2.text]
      ∧ (translateChunkStep hkey apiKey transports sl tl ls ie).errors
        = ls.errors ++ [(ie.2.id, err)])
    ∧ ((streamChunkStep hkey apiKey transports sl tl total ss ie').translated_parts
        = ss.translated_parts ++ [ie'.2.text]
      ∧ (streamChunkStep hkey apiKey transports sl tl total ss ie').events
        = ss.events
          ++ [StreamEvent.progress (ie'.1 + 1) total ((ie'.1 + 1) * 100 / total)
                (str "Translating chunk " ++ Nat.toDigits 10 (ie'.1 + 1) ++ str " of "
                  ++ Nat.toDigits 10 total),
              StreamEvent.chunk_error ie'.2.id err'])
    ∧ (∀ (ps : List (Nat × DocumentChunk)) (ls0 : LoopState),
        (ps.foldl (translateChunkStep hkey apiKey transports sl tl) ls0).translated_chunks.length
          = ls0.translated_chunks.length + ps.length)
    ∧ (∀ (ps : List (Nat × DocumentChunk)) (ss0 : StreamState),
        (ps.foldl (streamChunkStep hkey apiKey transports sl tl total) ss0).translated_parts.length
          = ss0.translated_parts.length + ps.length) := by
  have hget : TranslationCache.get hkey ls.cache ie.2.text
      = (none, { ls.cache with misses := ls.cache.misses + 1 }) := by
    unfold TranslationCache.get
    rw [hmiss]
  have hget' : TranslationCache.get hkey ss.cache ie'.2.text
      = (none, { ss.cache with misses := ss.cache.misses + 1 }) := by
    unfold TranslationCache.get
    rw [hmiss']
  refine ⟨⟨?_, ?_⟩, ⟨?_, ?_⟩, runChunks_no_abort hkey apiKey transports sl tl,
    streamChunks_no_abort hkey apiKey transports sl tl total⟩
  · unfold translateChunkStep
    rw [hget]
    simp only [herr]
  · unfold translateChunkStep
    rw [hget]
    simp only [herr]
  · unfold streamChunkStep
    simp only [hget', herr']
  · unfold streamChunkStep
    simp only [hget', herr']
    simp [List.append_assoc]

/-- Concrete loop state for exercising the per-chunk failure behaviour. -/
def lsW : LoopState :=
  { cache := TranslationCache.init 100, request_count := 0, gen_calls := 0,
    translated_chunks := [], errors := [], cached_count := 0,
    previous_translation := [] }

/-- Concrete streaming state for exercising the per-chunk failure
behaviour. -/
def ssW : StreamState :=
  { cache := TranslationCache.init 100, request_count := 0, gen_calls := 0,
    translated_parts := [], previous_translation := [], events := [] }

/-- Concrete chunk for exercising the per-chunk failure behaviour. -/
def chunkW : DocumentChunk :=
  { id := 0, text := str "x.", start_pos := 0, end_pos := 2, page_number := 1,
    embedding := none }

/-- C1 claim, witness: a concrete failing chunk (no API key) in both
modes — blocking appends the placeholder and records the error; streaming
appends the original text and emits a `chunk_error` event. -/
theorem per_chunk_failure_never_aborts_witness :
    (odFind lsW.cache.cache (id ((0, chunkW)).2.text) = none
      ∧ (GeminiGenerator.generate none ((fun _ _ _ => HttpResp.timeout) lsW.gen_calls
          (get_translation_prompt ((0, chunkW)).2.text (str "Urdu") (str "English")
            (if 0 < ((0, chunkW)).1 then some lsW.previous_translation else none)))).error
        = some (str "API key not configured"))
    ∧ (((translateChunkStep id none (fun _ _ _ => HttpResp.timeout) (str "Urdu") (str "English")
          lsW (0, chunkW)).translated_chunks
        = lsW.translated_chunks ++ [failurePlaceholder ((0, chunkW)).2.text]
      ∧ (translateChunkStep id none (fun _ _ _ => HttpResp.timeout) (str "Urdu") (str "English")
          lsW (0, chunkW)).errors
        = lsW.errors ++ [(((0, chunkW)).2.id, str "API key not configured")])
    ∧ ((streamChunkStep id none (fun _ _ _ => HttpResp.timeout) (str "Urdu") (str "English")
          1 ssW (0, chunkW)).translated_parts
        = ssW.translated_parts ++ [((0, chunkW)).2.text]
      ∧ (streamChunkStep id none (fun _ _ _ => HttpResp.timeout) (str "Urdu") (str "English")
          1 ssW (0, chunkW)).events
        = ssW.events
          ++ [StreamEvent.progress (((0, chunkW)).1 + 1) 1 ((((0, chunkW)).1 + 1) * 100 / 1)
                (str "Translating chunk " ++ Nat.toDigits 10 (((0, chunkW)).1 + 1) ++ str " of "
                  ++ Nat.toDigits 10 1),
              StreamEvent.chunk_error ((0, chunkW)).2.id (str "API key not configured")])
    ∧ (∀ (ps : List (Nat × DocumentChunk)) (ls0 : LoopState),
        (ps.foldl (translateChunkStep id none (fun _ _ _ => HttpResp.timeout)
            (str "Urdu") (str "English")) ls0).translated_chunks.length
          = ls0.translated_chunks.length + ps.length)
    ∧ (∀ (ps : List (Nat × DocumentChunk)) (ss0 : StreamState),
        (ps.foldl (streamChunkStep id none (fun _ _ _ => HttpResp.timeout)
            (str "Urdu") (str "English") 1) ss0).translated_parts.length
          = ss0.translated_parts.length + ps.length)) :=
  ⟨⟨by decide, by decide⟩,
   per_chunk_failure_never_aborts id none (fun _ _ _ => HttpResp.timeout)
     (str "Urdu") (str "English") 1 lsW ssW (0, chunkW) (0, chunkW)
     (str "API key not configured") (str "API key not configured")
     (by decide) (by decide) (by decide) (by decide)⟩

/-- Projection discarding the (real-valued) cache statistics of a
`complete` event. -/
def completeTextOf : StreamEvent → Option Str
  | .complete t _ => some t
  | _ => none

set_option maxRecDepth 40000 in
/-- C1 claim, counterexample.
A streaming run over the one-chunk document `"hello world."` with no API
key fails its only chunk; the assembled text of the terminal `complete`
event is the chunk's ORIGINAL text, not the placeholder the claim
asserts — refuting "in both the blocking and the streaming mode … the
failed chunk's output … is replaced by the placeholder". -/
theorem streaming_failure_keeps_original_text :
    ((translate_streaming (fun s => s) (fun _ => 0) none (fun _ _ _ => HttpResp.timeout)
        RAGTranslationPipeline.init (str "hello world.") (str "Urdu") (str "English")).1.length
      = 4)
    ∧ ((translate_streaming (fun s => s) (fun _ => 0) none (fun _ _ _ => HttpResp.timeout)
        RAGTranslationPipeline.init (str "hello world.") (str "Urdu") (str "English")).1[2]?
      = some (StreamEvent.chunk_error 0 (str "API key not configured")))
    ∧ ((translate_streaming (fun s => s) (fun _ => 0) none (fun _ _ _ => HttpResp.timeout)
        RAGTranslationPipeline.init (str "hello world.") (str "Urdu") (str "English")).1.getLast?.bind
        completeTextOf
      = some (str "hello world."))
    ∧ str "hello world." ≠ failurePlaceholder (str "hello world.") := by
  refine ⟨by decide, by decide, by decide, by decide⟩

lemma get_counters (hkey : Str → Str) (c : TranslationCache) (t : Str) :
    (TranslationCache.get hkey c t).2.hits ≥ c.hits
    ∧ (TranslationCache.get hkey c t).2.misses ≥ c.misses
    ∧ (TranslationCache.get hkey c t).2.max_size = c.max_size := by
  unfold TranslationCache.get
  cases odFind c.cache (hkey t) <;> simp

lemma translateChunkStep_counters (hkey : Str → Str) (apiKey : Option Str)
    (transports : Nat → Str → Nat → HttpResp) (sl tl : Str)
    (ls : LoopState) (ie : Nat × DocumentChunk) :
    (translateChunkStep hkey apiKey transports sl tl ls ie).cache.hits ≥ ls.cache.hits
    ∧ (translateChunkStep hkey apiKey transports sl tl ls ie).cache.misses ≥ ls.cache.misses
    ∧ (translateChunkStep hkey apiKey transports sl tl ls ie).cache.max_size = ls.cache.max_size
    ∧ (translateChunkStep hkey apiKey transports sl tl ls ie).request_count ≥ ls.request_count := by
  unfold translateChunkStep
  have hc := get_counters hkey ls.cache ie.2.text
  cases hget : TranslationCache.get hkey ls.cache ie.2.text with
  | mk o c' =>
      rw [hget] at hc
      cases o with
      | some cached => exact ⟨hc.1, hc.2.1, hc.2.2, le_refl _⟩
      | none =>
          cases herr : (GeminiGenerator.generate apiKey (transports ls.gen_calls
              (get_translation_prompt ie.2.text sl tl
                (if 0 < ie.1 then some ls.previous_translation else none)))).error with
          | some e =>
              simp only [herr]
              exact ⟨hc.1, hc.2.1, hc.2.2, Nat.le_add_right ..⟩
          | none =>
              simp only [herr]
              refine ⟨?_, ?_, ?_, Nat.le_add_right ..⟩
              · show (TranslationCache.set hkey c' ie.2.text _).hits ≥ ls.cache.hits
                exact hc.1
              · show (TranslationCache.set hkey c' ie.2.text _).misses ≥ ls.cache.misses
                exact hc.2.1
              · show (TranslationCache.set hkey c' ie.2.text _).max_size = ls.cache.max_size
                exact hc.2.2

lemma runChunks_counters (hkey : Str → Str) (apiKey : Option Str)
    (transports : Nat → Str → Nat → HttpResp) (sl tl : Str) :
    ∀ (ps : List (Nat × DocumentChunk)) (ls : LoopState),
      (ps.foldl (translateChunkStep hkey apiKey transports sl tl) ls).cache.hits ≥ ls.cache.hits
      ∧ (ps.foldl (translateChunkStep hkey apiKey transports sl tl) ls).cache.misses
          ≥ ls.cache.misses
      ∧ (ps.foldl (translateChunkStep hkey apiKey transports sl tl) ls).cache.max_size
          = ls.cache.max_size
      ∧ (ps.foldl (translateChunkStep hkey apiKey transports sl tl) ls).request_count
          ≥ ls.request_count := by
  intro ps
  induction ps with
  | nil => intro ls; exact ⟨le_refl _, le_refl _, rfl, le_refl _⟩
  | cons q qs ih =>
      intro ls
      rw [List.foldl_cons]
      obtain ⟨i1, i2, i3, i4⟩ := ih (translateChunkStep hkey apiKey transports sl tl ls q)
      obtain ⟨s1, s2, s3, s4⟩ := translateChunkStep_counters hkey apiKey transports sl tl ls q
      exact ⟨le_trans s1 i1, le_trans s2 i2, i3.trans s3, le_trans s4 i4⟩

/-- C9 claim, theorem.
The singleton accessor returns the stored pipeline object itself, so
successive `translate_with_rag` calls share one state; a
`translate_document` run on a nonempty document resets the vector store
to exactly the freshly embedded chunks of the current text (its result is
entirely independent of the incoming store), while the cache — its
contents bound, hit and miss counters — and the generator's
`request_count` carry over and are never reset. -/
theorem pipeline_singleton_state_carryover (hkey : Str → Str) (hash : Str → Nat)
    (apiKey : Option Str) (transports : Nat → Str → Nat → HttpResp)
    (p : RAGTranslationPipeline) (text sl tl : Str)
    (hne : (chunk_document text CHUNK_SIZE OVERLAP_SIZE).length ≠ 0) :
    get_rag_translator (some p) = (p, some p)
    ∧ (translate_document hkey hash apiKey transports p text sl tl).2.2.vector_store
        = InMemoryVectorStore.add_chunks hash { chunks := [], index_built := false }
            (chunk_document text CHUNK_SIZE OVERLAP_SIZE)
    ∧ (translate_document hkey hash apiKey transports p text sl tl).2.2.cache.hits
        ≥ p.cache.hits
    ∧ (translate_document hkey hash apiKey transports p text sl tl).2.2.cache.misses
        ≥ p.cache.misses
    ∧ (translate_document hkey hash apiKey transports p text sl tl).2.2.cache.max_size
        = p.cache.max_size
    ∧ (translate_document hkey hash apiKey transports p text sl tl).2.2.request_count
        ≥ p.request_count
    ∧ ∀ store' : InMemoryVectorStore,
        translate_document hkey hash apiKey transports
          { p with vector_store := store' } text sl tl
        = translate_document hkey hash apiKey transports p text sl tl := by
  have hcnt := runChunks_counters hkey apiKey transports sl tl
    (chunk_document text CHUNK_SIZE OVERLAP_SIZE).enum
    { cache := p.cache, request_count := p.request_count, gen_calls := 0,
      translated_chunks := [], errors := [], cached_count := 0,
      previous_translation := [] }
  refine ⟨rfl, ?_, ?_, ?_, ?_, ?_, ?_⟩
  · unfold translate_document
    rw [if_neg hne]
    rfl
  · unfold translate_document
    rw [if_neg hne]
    exact hcnt.1
  · unfold translate_document
    rw [if_neg hne]
    exact hcnt.2.1
  · unfold translate_document
    rw [if_neg hne]
    exact hcnt.2.2.1
  · unfold translate_document
    rw [if_neg hne]
    exact hcnt.2.2.2
  · intro store'
    unfold translate_document
    simp only [if_neg hne]
    rfl

/-- A concrete pipeline with pre-existing store content, cache entries and
nonzero counters, for exercising the carry-over behaviour. -/
def pW : RAGTranslationPipeline :=
  { vector_store := { chunks := [chunkW], index_built := true }
    cache := { cache := [(str "k", str "v")], max_size := 100, hits := 3, misses := 4 }
    request_count := 5 }

set_option maxRecDepth 40000 in
/-- C9 claim, witness: a pipeline with pre-existing store content, cache
entries and nonzero counters, run over the one-chunk document `"hi."`. -/
theorem pipeline_singleton_state_carryover_witness :
    ((chunk_document (str "hi.") CHUNK_SIZE OVERLAP_SIZE).length ≠ 0)
    ∧ (get_rag_translator (some pW) = (pW, some pW)
    ∧ (translate_document (fun s => s) (fun _ => 0) none (fun _ _ _ => HttpResp.timeout)
        pW (str "hi.") (str "Urdu") (str "English")).2.2.vector_store
        = InMemoryVectorStore.add_chunks (fun _ => 0) { chunks := [], index_built := false }
            (chunk_document (str "hi.") CHUNK_SIZE OVERLAP_SIZE)
    ∧ (translate_document (fun s => s) (fun _ => 0) none (fun _ _ _ => HttpResp.timeout)
        pW (str "hi.") (str "Urdu") (str "English")).2.2.cache.hits ≥ 3
    ∧ (translate_document (fun s => s) (fun _ => 0) none (fun _ _ _ => HttpResp.timeout)
        pW (str "hi.") (str "Urdu") (str "English")).2.2.cache.misses ≥ 4
    ∧ (translate_document (fun s => s) (fun _ => 0) none (fun _ _ _ => HttpResp.timeout)
        pW (str "hi.") (str "Urdu") (str "English")).2.2.cache.max_size = 100
    ∧ (translate_document (fun s => s) (fun _ => 0) none (fun _ _ _ => HttpResp.timeout)
        pW (str "hi.") (str "Urdu") (str "English")).2.2.request_count ≥ 5
    ∧ ∀ store' : InMemoryVectorStore,
        translate_document (fun s => s) (fun _ => 0) none (fun _ _ _ => HttpResp.timeout)
          { vector_store := store'
            cache := { cache := [(str "k", str "v")], max_size := 100, hits := 3, misses := 4 }
            request_count := 5 } (str "hi.") (str "Urdu") (str "English")
        = translate_document (fun s => s) (fun _ => 0) none (fun _ _ _ => HttpResp.timeout)
          pW (str "hi.") (str "Urdu") (str "English")) :=
  ⟨by decide,
   pipeline_singleton_state_carryover (fun s => s) (fun _ => 0) none
     (fun _ _ _ => HttpResp.timeout) pW (str "hi.") (str "Urdu") (str "English")
     (by decide)⟩

end RagTranslator
